import Mathlib

/-!
Disklab: a shallow embedding of the HDD timing model and the block cache

The definitions below follow `hdd.cpp`, `hdd.h`, `cache.cpp`, `cache.h` and
`disk_driver.cpp` statement by statement.

Conventions of the embedding

* `uint32` / `uint64` values are natural numbers, reduced `% 2^32` / `% 2^64`
  after every arithmetic operation that the source performs in that type.
* `int` values are integers; a conversion to `int` keeps the low 32 bits and
  reads them in two's complement, a conversion from `int` to an unsigned type
  reduces modulo the width of that type.
* `double` values are exact rationals: rounding of IEEE arithmetic is not
  part of the model, and a division by zero yields `0` as it does in `ℚ`.
* Output on `cout` is not modelled.
-/

namespace DiskLab

/-! ## Machine integers -/

/-- Modelled from the spec: `types.h` is not among the sources; the spec types
the head track as `uint32` and block identifiers as `uint64`, which are taken
to be the 32 bit and 64 bit unsigned integers. This is the reduction of a
natural number to `uint32`. -/
def u32 (n : Nat) : Nat := n % 2 ^ 32

/-- Modelled from the spec: `types.h` is not among the sources; reduction of a
natural number to the 64 bit unsigned `uint64`. -/
def u64 (n : Nat) : Nat := n % 2 ^ 64

/-- Subtraction `a - b` carried out in `uint32`. -/
def sub32 (a b : Nat) : Nat := (a % 2 ^ 32 + (2 ^ 32 - b % 2 ^ 32)) % 2 ^ 32

/-- Subtraction `a - b` carried out in `uint64`. -/
def sub64 (a b : Nat) : Nat := (a % 2 ^ 64 + (2 ^ 64 - b % 2 ^ 64)) % 2 ^ 64

/-- Conversion of an unsigned value to `int`: the low 32 bits, two's complement. -/
def toInt32 (n : Nat) : Int :=
  if n % 2 ^ 32 < 2 ^ 31 then ((n % 2 ^ 32 : Nat) : Int)
  else ((n % 2 ^ 32 : Nat) : Int) - 2 ^ 32

/-- Conversion of an `int` to `uint32`. -/
def ofInt32 (z : Int) : Nat := (z % 2 ^ 32).toNat

/-- Conversion of an `int` to `uint64` (sign extension). -/
def ofInt64 (z : Int) : Nat := (z % 2 ^ 64).toNat

/-! ## The device -/

/-- The result of `HDD::decode` (`hdd.h`, `HDD_Position`). -/
structure HDD_Position where
  surface : Nat
  track : Nat
  sector : Nat
  max_sectors : Nat
  deriving DecidableEq, Repr

/-- The fields of class `HDD` (`hdd.h`). The pointer `_cache` is never
assigned nor dereferenced in `hdd.cpp` and is left out. -/
structure HDD where
  surfaces : Nat
  tracks_per_surface : Nat
  rpm : Nat
  sector_size : Nat
  seek_overhead : ℚ
  seek_per_track : ℚ
  verbose : Bool
  head_pos : Nat
  sectors_innermost_track : Nat
  sectors_outermost_track : Nat
  surface_pos : Nat
  deriving DecidableEq

namespace HDD

/-- The constructor `HDD::HDD`: the head starts above track 0, surface 0. -/
def new (surfaces tracks_per_surface sectors_innermost_track
    sectors_outermost_track rpm sector_size : Nat)
    (seek_overhead seek_per_track : ℚ) (verbose : Bool) : HDD :=
  { surfaces := surfaces
    tracks_per_surface := tracks_per_surface
    rpm := rpm
    sector_size := sector_size
    seek_overhead := seek_overhead
    seek_per_track := seek_per_track
    verbose := verbose
    head_pos := 0
    sectors_innermost_track := sectors_innermost_track
    sectors_outermost_track := sectors_outermost_track
    surface_pos := 0 }

/-- Every `uint32` field holds a `uint32`. -/
def WellFormed (d : HDD) : Prop :=
  d.surfaces < 2 ^ 32 ∧ d.tracks_per_surface < 2 ^ 32 ∧ d.rpm < 2 ^ 32 ∧
  d.sector_size < 2 ^ 32 ∧ d.head_pos < 2 ^ 32 ∧
  d.sectors_innermost_track < 2 ^ 32 ∧ d.sectors_outermost_track < 2 ^ 32 ∧
  d.surface_pos < 2 ^ 32

/-- The method `HDD::sectors_track`: the whole expression is evaluated in
`uint32`, left to right, and widened on return. For
`tracks_per_surface = 1` the source divides by zero. -/
def sectors_track (d : HDD) (num_track : Nat) : Nat :=
  u32 (d.sectors_innermost_track +
    u32 (num_track * sub32 d.sectors_outermost_track d.sectors_innermost_track)
      / sub32 d.tracks_per_surface 1)

/-- The method `HDD::sectors_surface`: `int i, sum`; the loop runs while
`i < _tracks_per_surface - 1` (an unsigned comparison) and each
`sum += sectors_track(i)` is computed in `uint64` and stored back in `int`. -/
def sectors_surface (d : HDD) : Nat :=
  ofInt64 ((List.range (sub32 d.tracks_per_surface 1)).foldl
    (fun (sum : Int) (i : Nat) => toInt32 (u64 (ofInt64 sum + d.sectors_track i))) 0)

/-- The method `HDD::capacity`, in bytes (`uint64` arithmetic). -/
def capacity (d : HDD) : Nat :=
  u64 (u64 (d.surfaces * d.sectors_surface) * d.sector_size)

/-- The first loop of `HDD::decode`: `i` counts tracks, `sum` (an `int`)
accumulates their sectors. `sum*_surfaces - 1` is evaluated in `uint32`.
The first argument bounds the number of iterations; `i` grows by one per
iteration and the loop stops at `i = _tracks_per_surface`. -/
def decode_track_loop (d : HDD) (block : Nat) : Nat → Nat → Int → Nat × Int
  | 0, i, sum => (i, sum)
  | fuel + 1, i, sum =>
    if block > sub32 (u32 (ofInt32 sum * d.surfaces)) 1 ∧ i < d.tracks_per_surface then
      decode_track_loop d block fuel (i + 1)
        (toInt32 (u64 (ofInt64 sum + d.sectors_track i)))
    else (i, sum)

/-- The second loop of `HDD::decode`: `cursor` (an `int`) walks over the
blocks of one surface, `i` counts the steps. `block != cursor` compares in
`uint64`, `cursor += _surfaces` adds in `uint32`. The loop stops at
`i = sectors_track(track)`, which bounds the number of iterations. -/
def decode_cursor_loop (d : HDD) (block track : Nat) : Nat → Nat → Int → Nat × Int
  | 0, i, cursor => (i, cursor)
  | fuel + 1, i, cursor =>
    if block ≠ ofInt64 cursor ∧ i < d.sectors_track track then
      decode_cursor_loop d block track fuel (i + 1)
        (toInt32 (u32 (ofInt32 cursor + d.surfaces)))
    else (i, cursor)

/-- The method `HDD::decode`; `none` is the return value `false`. The
pointer argument is the address of a local of the caller, so the `NULL`
test never fires. -/
def decode (d : HDD) (block : Nat) : Option HDD_Position :=
  if block ≥ u64 (d.sectors_surface * d.surfaces) then none
  else
    let surface := u32 (block % d.surfaces)
    let r := decode_track_loop d block d.tracks_per_surface 1
      (toInt32 (d.sectors_track 0))
    let i := r.1
    let sum := r.2
    if i ≥ d.tracks_per_surface then none
    else
      let track := u32 (i - 1)
      let cursor := toInt32 (u64 (u64 (sub64 (ofInt64 sum) (d.sectors_track i) * d.surfaces)
        + surface))
      let c := decode_cursor_loop d block track (d.sectors_track track) 0 cursor
      let j := c.1
      if j ≥ d.sectors_track track then none
      else
        some { surface := surface
               track := track
               sector := j
               max_sectors :=
                 u32 (sub64 (u64 (sub64 (d.sectors_track track) j * d.surfaces)) surface) }

/-- The method `HDD::seek_time`. Both branches after the equality test
return the same expression, with the signed difference `to_track - from_track`. -/
def seek_time (d : HDD) (from_track to_track : Nat) : ℚ :=
  if from_track = to_track then 0
  else if from_track > to_track then
    d.seek_overhead + ((to_track : ℚ) - (from_track : ℚ)) * d.seek_per_track
  else
    d.seek_overhead + ((to_track : ℚ) - (from_track : ℚ)) * d.seek_per_track

/-- The method `HDD::wait_time`: half a rotation. -/
def wait_time (d : HDD) : ℚ := ((60 : ℚ) / (d.rpm : ℚ)) / 2

/-- The method `HDD::read_time`: the sector count of the track under
`_head_pos` is used, `_surface_pos` is advanced, and the time of the
rotation share is returned together with the new device state. -/
def read_time (d : HDD) (sectors : Nat) : ℚ × HDD :=
  let nb_sectors_track := d.sectors_track d.head_pos
  let surface_buf := d.surface_pos
  let d1 := { d with surface_pos := u32 (u64 (sectors + d.surface_pos) % d.surfaces) }
  ((((⌈((u64 (sectors + surface_buf) : Nat) : ℚ) / (d.surfaces : ℚ)⌉ : Int) : ℚ)
      / (nb_sectors_track : ℚ)) * 60 / (d.rpm : ℚ), d1)

end HDD

/-- Which `return` statement of `HDD::read` was executed: `-1.1` after a
failed `decode`, `-1.2` inside the track loop, or the end timestamp. -/
inductive ReadResult where
  | err_decode : ReadResult
  | err_track : ReadResult
  | ok : ℚ → ReadResult
  deriving DecidableEq

namespace ReadResult

/-- The `double` that the caller of `HDD::read` receives. -/
def value : ReadResult → ℚ
  | err_decode => -11 / 10
  | err_track => -12 / 10
  | ok t => t

/-- The call returned one of the two error sentinels. -/
def isError : ReadResult → Bool
  | ok _ => false
  | _ => true

end ReadResult

namespace HDD

/-- The device and the locals `pos`, `sum`, `seek_tim`, `read_tim` of
`HDD::read` while its track loop runs. -/
structure ReadLocals where
  dev : HDD
  pos : HDD_Position
  sum : Nat
  seek_tim : ℚ
  read_tim : ℚ

/-- One pass through the body of the `while` loop of `HDD::read`, up to the
test `pos.track > _tracks_per_surface`. The local `nb_track` stays `0`, so
`_head_pos = pos.track + nb_track` stores `pos.track`. -/
def read_advance (nblocks : Nat) (s : ReadLocals) : ReadLocals :=
  let d1 := { s.dev with head_pos := s.pos.track }
  let track := u32 (s.pos.track + 1)
  let sum1 := u64 (s.sum + s.pos.max_sectors)
  let max1 := u32 (u64 (d1.sectors_track track * d1.surfaces))
  let read_track := if sub64 nblocks sum1 > max1 then max1 else sub64 nblocks sum1
  let seek1 := s.seek_tim + d1.seek_time d1.head_pos track
  let r := d1.read_time read_track
  { dev := r.2
    pos := { surface := s.pos.surface, track := track, sector := 0, max_sectors := max1 }
    sum := sum1
    seek_tim := seek1
    read_tim := s.read_tim + r.1 }

/-- The `while` loop of `HDD::read`. The first argument bounds the number of
evaluations of the loop condition; `none` means that the bound was reached. -/
def read_loop (ts : ℚ) (nblocks : Nat) : Nat → ReadLocals → Option (ReadResult × HDD)
  | 0, _ => none
  | fuel + 1, s =>
    if sub64 nblocks s.sum > s.pos.max_sectors then
      if (read_advance nblocks s).pos.track > (read_advance nblocks s).dev.tracks_per_surface then
        some (ReadResult.err_track, (read_advance nblocks s).dev)
      else read_loop ts nblocks fuel (read_advance nblocks s)
    else some (ReadResult.ok (ts + s.seek_tim + s.read_tim + s.dev.wait_time), s.dev)

/-- The locals of `HDD::read` when the track loop is entered: `_surface_pos`
is set from the decoded position, the first seek and the first transfer
(`nblocks` or `pos.max_sectors` sectors) are charged. -/
def read_init (d : HDD) (pos : HDD_Position) (nblocks : Nat) : ReadLocals :=
  let d1 := { d with surface_pos := pos.surface }
  let seek_tim := d1.seek_time d1.head_pos pos.track
  let r := if sub64 nblocks 0 < pos.max_sectors then d1.read_time nblocks
           else d1.read_time pos.max_sectors
  { dev := r.2, pos := pos, sum := 0, seek_tim := seek_tim, read_tim := r.1 }

/-- The method `HDD::read`, with the executed `return` made explicit and the
device state after the call. `fuel` bounds the iterations of the track loop. -/
def read_run (fuel : Nat) (d : HDD) (ts : ℚ) (block nblocks : Nat) :
    Option (ReadResult × HDD) :=
  match d.decode block with
  | none => some (ReadResult.err_decode, d)
  | some pos => read_loop ts nblocks fuel (read_init d pos nblocks)

/-- The value returned by `HDD::read`. -/
def read (fuel : Nat) (d : HDD) (ts : ℚ) (block nblocks : Nat) : Option ℚ :=
  (d.read_run fuel ts block nblocks).map (fun r => r.1.value)

/-- The method `HDD::write`: the body is `return ts;`. -/
def write (d : HDD) (ts : ℚ) (_block _nblocks : Nat) : ℚ × HDD := (ts, d)

end HDD

/-! ## The block cache -/

/-- The fields of class `BlockCache` (`cache.h`). -/
structure BlockCache where
  nblocks : Nat
  verbose : Bool
  hit : Nat
  miss : Nat
  deriving DecidableEq, Repr

namespace BlockCache

/-- The constructor `BlockCache::BlockCache`: `assert(nblocks >= 2)`, then
both counters are cleared. `none` stands for the failed assertion. -/
def new (nblocks : Nat) (verbose : Bool) : Option BlockCache :=
  if nblocks ≥ 2 then some { nblocks := nblocks, verbose := verbose, hit := 0, miss := 0 }
  else none

/-- The method `BlockCache::size`. -/
def size (c : BlockCache) : Nat := c.nblocks

/-- The method `BlockCache::hits`. -/
def hits (c : BlockCache) : Nat := c.hit

/-- The method `BlockCache::misses`. -/
def misses (c : BlockCache) : Nat := c.miss

/-- The method `BlockCache::miss_rate`: the body is `return 0.0;`. -/
def miss_rate (_c : BlockCache) : ℚ := 0

/-- The method `BlockCache::has`: the body is `return false;`. -/
def has (_c : BlockCache) (_block : Nat) : Bool := false

/-- The method `BlockCache::get`: the body is `return false;`, no field is
written. The result is the returned flag and the cache after the call. -/
def get (c : BlockCache) (_block : Nat) : Bool × BlockCache := (false, c)

/-- The method `BlockCache::put`: the body is empty. -/
def put (c : BlockCache) (_block : Nat) : BlockCache := c

/-- A sequence of calls of `get`, as in `test` of `cache_driver.cpp`: the
flags returned, in order, and the cache after the last call. -/
def getAll : BlockCache → List Nat → List Bool × BlockCache
  | c, [] => ([], c)
  | c, b :: bs =>
    let r := c.get b
    let rest := getAll r.2 bs
    (r.1 :: rest.1, rest.2)

end BlockCache

/-! ## The trace driver -/

namespace Driver

/-- The statement `block = address / bps;` of `main` in `disk_driver.cpp`
(`uint64` divided by `uint32`). -/
def block (bps address : Nat) : Nat := address / bps

/-- The statement `nblocks = (length + bps-1) / bps;` of `main` in
`disk_driver.cpp`: the sum and the difference are formed in `uint64`. -/
def nblocks (bps length : Nat) : Nat := sub64 (u64 (length + bps)) 1 / bps

end Driver

/-! ## The passes of the track loop of `read` -/

namespace HDD

/-- The sector count of the first call of `read_time` in `HDD::read`:
`nblocks` when `nblocks - sum < pos.max_sectors` (with `sum = 0`), else
`pos.max_sectors`. -/
def read_init_count (pos : HDD_Position) (nblocks : Nat) : Nat :=
  if sub64 nblocks 0 < pos.max_sectors then nblocks else pos.max_sectors

/-- The value of the local `read_track` in the pass of the track loop that
starts with the locals `s`: the sector count handed to `read_time` there. -/
def read_count (nblocks : Nat) (s : ReadLocals) : Nat :=
  let d1 := { s.dev with head_pos := s.pos.track }
  let track := u32 (s.pos.track + 1)
  let sum1 := u64 (s.sum + s.pos.max_sectors)
  let max1 := u32 (u64 (d1.sectors_track track * d1.surfaces))
  if sub64 nblocks sum1 > max1 then max1 else sub64 nblocks sum1

/-- The seek charged in the pass that starts with the locals `s`:
`seek_time(_head_pos, pos.track)` after `_head_pos = pos.track; pos.track++`. -/
def pass_seek (s : ReadLocals) : ℚ :=
  ({ s.dev with head_pos := s.pos.track } : HDD).seek_time s.pos.track (u32 (s.pos.track + 1))

/-- The transfer charged in the pass that starts with the locals `s`:
the value of `read_time(read_track)`. -/
def pass_transfer (nblocks : Nat) (s : ReadLocals) : ℚ :=
  (({ s.dev with head_pos := s.pos.track } : HDD).read_time (read_count nblocks s)).1

/-- The passes of the track loop of `HDD::read`: the locals at the start of
every execution of the loop body, in order, following `read_loop` (the loop
condition, the return inside the body, the bound on the iterations). -/
def read_passes (nblocks : Nat) : Nat → ReadLocals → List ReadLocals
  | 0, _ => []
  | fuel + 1, s =>
    if sub64 nblocks s.sum > s.pos.max_sectors then
      s :: (if (read_advance nblocks s).pos.track
                > (read_advance nblocks s).dev.tracks_per_surface then []
            else read_passes nblocks fuel (read_advance nblocks s))
    else []

/-- The track indices that the loop of `HDD::read` advances to: the value of
`pos.track` after `pos.track++` in every pass. -/
def read_tracks (nblocks : Nat) (fuel : Nat) (s : ReadLocals) : List Nat :=
  (read_passes nblocks fuel s).map (fun p => (read_advance nblocks p).pos.track)

/-- The sector counts handed to `read_time` by `HDD::read` after the start
block was decoded to `pos`: the first call and one call per pass. -/
def read_counts (d : HDD) (pos : HDD_Position) (nblocks fuel : Nat) : List Nat :=
  read_init_count pos nblocks
    :: (read_passes nblocks fuel (read_init d pos nblocks)).map (read_count nblocks)

/-- The method `HDD::read` next to a block cache. The constructor of `HDD`
does not create a cache, `_cache` is never assigned, and the body of `read`
contains no call of a `BlockCache` method: a cache `c` is the same after the
call as before it. -/
def read_with_cache (fuel : Nat) (d : HDD) (c : BlockCache) (ts : ℚ) (block nblocks : Nat) :
    Option (ReadResult × HDD × BlockCache) :=
  (d.read_run fuel ts block nblocks).map (fun r => (r.1, r.2, c))

end HDD

/-! ## Reference quantities used to state the claims -/

/-- The sum of `sectors_track t` over the tracks `t < n`, without any
reduction: the number of sectors of one surface in front of track `n`. -/
def sectorsBefore (d : HDD) (n : Nat) : Nat :=
  ((List.range n).map d.sectors_track).sum

/-- The transfer cost of `n` sectors on a given track starting at a given
surface offset, as the specification words it:
`ceil((n + offset) / surfaces) / sectorsPerTrack(track) * (60 / rpm)`. -/
def transferTimeSpec (d : HDD) (n track offset : Nat) : ℚ :=
  ((⌈((n + offset : Nat) : ℚ) / (d.surfaces : ℚ)⌉ : Int) : ℚ)
    / (d.sectors_track track : ℚ) * ((60 : ℚ) / (d.rpm : ℚ))

/-- The device used in the examples: one surface, five tracks with
1, 1, 2, 2, 3 sectors, 60 rpm, 512 byte sectors, seeks that cost nothing. -/
def zoned : HDD := HDD.new 1 5 1 3 60 512 0 0 false

/-- A device with one surface and two tracks of one sector each. -/
def tiny : HDD := HDD.new 1 2 1 1 60 512 0 0 false

/-- The geometry of `zoned` with a seek overhead of 2 and a cost of 1 per track. -/
def slow : HDD := HDD.new 1 5 1 3 60 512 2 1 false

/-- A device with two surfaces and four tracks of `2^31 + 1` sectors each: the
blocks of one track no longer fit in 32 bits. -/
def wide : HDD := HDD.new 2 4 2147483649 2147483649 60 512 0 0 false

/-- A device with three tracks whose sector count goes from 0 to `2^31`. -/
def steep : HDD := HDD.new 1 3 0 2147483648 60 512 0 0 false

/-- The geometry of `zoned` with seeks of 1 per track and no overhead, after
the read of the blocks 4 and 5 (bound 2 on the loop): the head is on track 3. -/
def parked : HDD :=
  match (HDD.new 1 5 1 3 60 512 0 1 false).read_run 2 0 4 2 with
  | some r => r.2
  | none => HDD.new 1 5 1 3 60 512 0 1 false

/-- A device with two surfaces and three tracks of two sectors each. -/
def paired : HDD := HDD.new 2 3 2 2 60 512 0 0 false

/-- A device with `2^31` surfaces, two tracks of four sectors and sectors of
`2^31` bytes: the byte count `2^31 * 4 * 2^31` is `2^64`. -/
def bulky : HDD := HDD.new 2147483648 2 4 4 60 2147483648 0 0 false

/-- A device constructed with one track per surface. -/
def single : HDD := HDD.new 1 1 1 1 60 512 0 0 false

end DiskLab

namespace DiskLab

set_option maxRecDepth 100000

/-! ## Evaluation lemmas for the example devices -/

theorem zoned_decode_0 :
    zoned.decode 0 = some { surface := 0, track := 0, sector := 0, max_sectors := 1 } := by
  decide

theorem zoned_decode_2 :
    zoned.decode 2 = some { surface := 0, track := 2, sector := 0, max_sectors := 2 } := by
  decide

theorem tiny_decode_0 :
    tiny.decode 0 = some { surface := 0, track := 0, sector := 0, max_sectors := 1 } := by
  decide

theorem tiny_decode_5 : tiny.decode 5 = none := by decide

/-- The track loop of `read` never produces the sentinel of a failed `decode`. -/
theorem read_loop_ne_err_decode (ts : ℚ) (nblocks : Nat) :
    ∀ (fuel : Nat) (s : HDD.ReadLocals) (d' : HDD),
      HDD.read_loop ts nblocks fuel s ≠ some (ReadResult.err_decode, d') := by
  intro fuel
  induction fuel with
  | zero => intro s d'; simp [HDD.read_loop]
  | succ n ih =>
    intro s d'
    rw [HDD.read_loop]
    split_ifs with h1 h2
    · simp
    · exact ih _ _
    · simp

/-! ## The claims -/

/-- Claim C1 (round trip of `decode`), evaluated on the device `zoned`
(tracks of 1, 1, 2, 2, 3 sectors, one surface): block 1 lies below
`capacity()/sectorSize = surfaces * sectors_surface() = 6`, yet `decode`
rejects it; block 4 is decoded to track 3, sector 1, surface 0, and
recomposing that position gives 5, not 4. -/
theorem decode_round_trip_broken :
    2 ≤ zoned.tracks_per_surface ∧
    zoned.capacity / zoned.sector_size = zoned.surfaces * zoned.sectors_surface ∧
    1 < zoned.capacity / zoned.sector_size ∧
    zoned.decode 1 = none ∧
    4 < zoned.capacity / zoned.sector_size ∧
    zoned.decode 4 = some { surface := 0, track := 3, sector := 1, max_sectors := 1 } ∧
    zoned.surfaces * sectorsBefore zoned 3 + 1 * zoned.surfaces + 0 = 5 := by
  decide

/-- Claim C2 (a read past the capacity is an error), evaluated on the device
`tiny` (two tracks of one sector, `capacity()/sectorSize = 1`): the read of
3 blocks at block 0 ends past the capacity and past the last track, and
`read` returns the end timestamp `7/2`, not a sentinel. -/
theorem read_past_capacity_returns_timestamp :
    tiny.capacity / tiny.sector_size = 1 ∧
    0 + 3 > tiny.capacity / tiny.sector_size ∧
    (tiny.read_run 3 0 0 3).map Prod.fst = some (ReadResult.ok (7 / 2)) ∧
    tiny.read 3 0 0 3 = some (7 / 2) := by
  have hs3 : sub64 3 0 = 3 := by decide
  have hs2 : sub64 3 1 = 2 := by decide
  have hs1 : sub64 3 2 = 1 := by decide
  have hc : tiny.capacity / tiny.sector_size = 1 := by decide
  have hrun : (tiny.read_run 3 0 0 3).map Prod.fst = some (ReadResult.ok (7 / 2)) := by
    simp +decide [HDD.read_run, tiny_decode_0, HDD.read_loop, HDD.read_init, HDD.read_advance,
      HDD.read_time, HDD.seek_time, HDD.wait_time, hs3, hs2, hs1]
    simp [tiny, HDD.new, HDD.sectors_track, u32, u64, sub32, sub64]
    norm_num
  refine ⟨hc, by rw [hc]; decide, hrun, ?_⟩
  have h := congrArg (Option.map ReadResult.value) hrun
  simpa [HDD.read, Option.map_map, Function.comp_def, ReadResult.value] using h

/-- Claim C3 as stated (no failed `read` changes `_head_pos` or
`_surface_pos`) does not hold: on the device `tiny` the read of 10 blocks at
block 0 returns the sentinel `-1.2` of the track loop after the loop has
stored track 2 in `_head_pos`, which was 0 before the call. -/
theorem read_error_moves_head :
    ¬ ∀ (fuel : Nat) (d : HDD) (ts : ℚ) (block nblocks : Nat) (r : ReadResult) (d' : HDD),
      d.WellFormed → d.read_run fuel ts block nblocks = some (r, d') → r.isError = true →
      d'.head_pos = d.head_pos ∧ d'.surface_pos = d.surface_pos := by
  intro h
  have hs10 : sub64 10 0 = 10 := by decide
  have hs9 : sub64 10 1 = 9 := by decide
  have hs8 : sub64 10 2 = 8 := by decide
  have hs7 : sub64 10 3 = 7 := by decide
  have hrun : tiny.read_run 3 0 0 10
      = some (ReadResult.err_track, { tiny with head_pos := 2 }) := by
    simp +decide [HDD.read_run, tiny_decode_0, HDD.read_loop, HDD.read_init, HDD.read_advance,
      HDD.read_time, HDD.seek_time, HDD.wait_time, hs10, hs9, hs8, hs7]
  have hwf : tiny.WellFormed := by
    simp [HDD.WellFormed, tiny, HDD.new]
  have h2 := (h 3 tiny 0 0 10 ReadResult.err_track { tiny with head_pos := 2 } hwf hrun rfl).1
  revert h2
  decide

/-- Claim C3, amended: a call of `read` that returns the sentinel `-1.1` (the
start block was rejected by `decode`) leaves the whole device state, in
particular `_head_pos` and `_surface_pos`, as it was before the call. -/
theorem read_decode_failure_keeps_state (fuel : Nat) (d : HDD) (ts : ℚ)
    (block nblocks : Nat) (d' : HDD)
    (h : d.read_run fuel ts block nblocks = some (ReadResult.err_decode, d')) :
    d' = d ∧ d'.head_pos = d.head_pos ∧ d'.surface_pos = d.surface_pos := by
  unfold HDD.read_run at h
  split at h
  · simp only [Option.some.injEq, Prod.mk.injEq, true_and] at h
    subst h
    exact ⟨rfl, rfl, rfl⟩
  · exact absurd h (read_loop_ne_err_decode ts nblocks fuel _ d')

/-- The amended claim C3 at a concrete call: block 5 of `tiny` is out of
range, the call returns `-1.1` and the device is unchanged. -/
theorem read_decode_failure_keeps_state_witness :
    tiny.read_run 1 0 5 1 = some (ReadResult.err_decode, tiny) ∧
    (tiny = tiny ∧ tiny.head_pos = tiny.head_pos ∧ tiny.surface_pos = tiny.surface_pos) :=
  have h : tiny.read_run 1 0 5 1 = some (ReadResult.err_decode, tiny) := by
    simp [HDD.read_run, tiny_decode_5]
  ⟨h, read_decode_failure_keeps_state 1 tiny 0 5 1 tiny h⟩

/-- Claim C4 (`seek_time` charges the absolute track distance), evaluated on
the device `slow` (seek overhead 2, 1 per track): moving from track 3 to
track 0 yields `2 + (0 - 3) * 1 = -1`, where the claim gives
`seekOverhead + |0 - 3| * seekPerTrack = 5`, a non-negative value. -/
theorem seek_time_backward_is_negative :
    0 ≤ slow.seek_overhead ∧ 0 ≤ slow.seek_per_track ∧
    slow.seek_time 3 0 = -1 ∧
    slow.seek_overhead + |((0 : Nat) : ℚ) - ((3 : Nat) : ℚ)| * slow.seek_per_track = 5 ∧
    slow.seek_time 3 0 < 0 := by
  simp [slow, HDD.new, HDD.seek_time]
  norm_num

/-- Claim C5 (`seek_time` is symmetric), evaluated on the device `slow`:
from track 0 to track 3 the seek costs 5, from track 3 to track 0 it costs
`-1`. -/
theorem seek_time_not_symmetric :
    slow.seek_time 0 3 = 5 ∧ slow.seek_time 3 0 = -1 ∧
    slow.seek_time 0 3 ≠ slow.seek_time 3 0 := by
  simp [slow, HDD.new, HDD.seek_time]
  norm_num

/-- Claim C6 (`sectors_surface` is the sum of `sectors_track` over all
tracks), evaluated on the device `tiny`: its two tracks hold one sector each,
`sectors_surface()` is 1 (the loop stops before the last track) and
`capacity()` is 512 bytes, not `1 * 2 * 512`. -/
theorem sectors_surface_skips_last_track :
    2 ≤ tiny.tracks_per_surface ∧
    tiny.sectors_surface = 1 ∧
    sectorsBefore tiny tiny.tracks_per_surface = 2 ∧
    tiny.capacity = 512 ∧
    tiny.surfaces * sectorsBefore tiny tiny.tracks_per_surface * tiny.sector_size = 1024 := by
  decide

/-- Claim C7 (strict LRU eviction), evaluated for capacity 2 and the accesses
`[0, 1, 2]`: the bodies of `get` and `has` are `return false;`, so afterwards
`misses()` is 0, not 3, and `has(1)` and `has(2)` are false. -/
theorem cache_get_records_nothing :
    ∃ c : BlockCache, BlockCache.new 2 false = some c ∧
      ((c.getAll [0, 1, 2]).2.misses = 0 ∧ (c.getAll [0, 1, 2]).2.hits = 0 ∧
       (c.getAll [0, 1, 2]).2.has 0 = false ∧
       (c.getAll [0, 1, 2]).2.has 1 = false ∧
       (c.getAll [0, 1, 2]).2.has 2 = false) :=
  ⟨{ nblocks := 2, verbose := false, hit := 0, miss := 0 }, by decide⟩

/-- Claim C8 (hits on resident blocks), evaluated for capacity 2 and the
accesses `[0, 1, 0, 1]`: every `get` returns false, `hits()` and `misses()`
stay 0 and `miss_rate()` is 0, not 0.5. -/
theorem cache_get_never_hits :
    ∃ c : BlockCache, BlockCache.new 2 false = some c ∧
      ((c.getAll [0, 1, 0, 1]).1 = [false, false, false, false] ∧
       (c.getAll [0, 1, 0, 1]).2.misses = 0 ∧
       (c.getAll [0, 1, 0, 1]).2.hits = 0 ∧
       (c.getAll [0, 1, 0, 1]).2.miss_rate = 0 ∧
       (c.getAll [0, 1, 0, 1]).2.miss_rate ≠ 1 / 2) :=
  ⟨{ nblocks := 2, verbose := false, hit := 0, miss := 0 },
    by decide, by decide, by decide, by decide, rfl, by simp [BlockCache.miss_rate]⟩

/-- Claim C9 (cost of a read inside one track), evaluated on the freshly
constructed device `zoned` (head on track 0, which has 1 sector): block 2
decodes to track 2, which has 2 sectors and a run of 2 blocks; the read of
1 block returns `0 + 0 + 1/1 + 1/2 = 3/2`, the transfer being computed with
the sector count of the head track 0, where the claim gives
`0 + 0 + 1/2 + 1/2 = 1` with the sector count of the target track. -/
theorem read_single_run_uses_head_track :
    zoned.decode 2 = some { surface := 0, track := 2, sector := 0, max_sectors := 2 } ∧
    (zoned.read_run 1 0 2 1).map Prod.fst = some (ReadResult.ok (3 / 2)) ∧
    0 + zoned.seek_time zoned.head_pos 2 + zoned.wait_time + transferTimeSpec zoned 1 2 0 = 1 ∧
    0 + zoned.seek_time zoned.head_pos 2 + zoned.wait_time
      + transferTimeSpec zoned 1 zoned.head_pos 0 = 3 / 2 := by
  have hs : sub64 1 0 = 1 := by decide
  refine ⟨zoned_decode_2, ?_, ?_, ?_⟩
  · simp +decide [HDD.read_run, zoned_decode_2, HDD.read_loop, HDD.read_init, HDD.read_time,
      HDD.seek_time, HDD.wait_time, hs]
    simp [zoned, HDD.new, HDD.sectors_track, u32, u64, sub32]
    norm_num
  · simp [zoned, HDD.new, HDD.seek_time, HDD.wait_time, transferTimeSpec, HDD.sectors_track,
      u32, sub32]
    norm_num
  · simp [zoned, HDD.new, HDD.seek_time, HDD.wait_time, transferTimeSpec, HDD.sectors_track,
      u32, sub32]
    norm_num

/-- Claim C10 (cost of a read over several tracks), evaluated on the freshly
constructed device `zoned`: the read of 4 blocks at block 0 covers tracks 0,
1, 2 with 1, 1, 2 blocks; `read` returns `9/2`, the transfer on track 2
being computed with the 1 sector of track 1 (the head track at that moment),
where the claim gives `7/2` with the 2 sectors of track 2. -/
theorem read_multi_track_uses_previous_track :
    zoned.decode 0 = some { surface := 0, track := 0, sector := 0, max_sectors := 1 } ∧
    (zoned.read_run 3 0 0 4).map Prod.fst = some (ReadResult.ok (9 / 2)) ∧
    0 + zoned.seek_time zoned.head_pos 0 + zoned.wait_time
      + (transferTimeSpec zoned 1 0 0 + transferTimeSpec zoned 1 1 0
          + transferTimeSpec zoned 2 2 0)
      + (zoned.seek_time 0 1 + zoned.seek_time 1 2) = 7 / 2 := by
  have hs4 : sub64 4 0 = 4 := by decide
  have hs3 : sub64 4 1 = 3 := by decide
  have hs2 : sub64 4 2 = 2 := by decide
  refine ⟨zoned_decode_0, ?_, ?_⟩
  · simp +decide [HDD.read_run, zoned_decode_0, HDD.read_loop, HDD.read_init,
      HDD.read_advance, HDD.read_time, HDD.seek_time, HDD.wait_time, hs4, hs3, hs2]
    simp [zoned, HDD.new, HDD.sectors_track, u32, u64, sub32, sub64]
    norm_num
  · simp [zoned, HDD.new, HDD.seek_time, HDD.wait_time, transferTimeSpec, HDD.sectors_track,
      u32, sub32]
    norm_num

/-! ## Machine arithmetic without overflow -/

theorem u32_of_lt {n : Nat} (h : n < 2 ^ 32) : u32 n = n := Nat.mod_eq_of_lt h

theorem u64_of_lt {n : Nat} (h : n < 2 ^ 64) : u64 n = n := Nat.mod_eq_of_lt h

theorem toInt32_of_lt {n : Nat} (h : n < 2 ^ 31) : toInt32 n = (n : Int) := by
  have h32 : n % 2 ^ 32 = n := Nat.mod_eq_of_lt (by omega)
  unfold toInt32
  rw [h32, if_pos h]

theorem ofInt64_natCast {n : Nat} (h : n < 2 ^ 64) : ofInt64 (n : Int) = n := by
  unfold ofInt64
  omega

theorem ofInt32_natCast {n : Nat} (h : n < 2 ^ 32) : ofInt32 (n : Int) = n := by
  unfold ofInt32
  omega

theorem sectorsBefore_succ (d : HDD) (n : Nat) :
    sectorsBefore d (n + 1) = sectorsBefore d n + d.sectors_track n := by
  simp [sectorsBefore, List.range_succ]

theorem sectorsBefore_mono (d : HDD) {a b : Nat} (h : a ≤ b) :
    sectorsBefore d a ≤ sectorsBefore d b := by
  induction b with
  | zero =>
    have : a = 0 := by omega
    subst this
    exact le_refl _
  | succ n ih =>
    rcases Nat.lt_or_ge a (n + 1) with hlt | hge
    · rw [sectorsBefore_succ]
      exact le_trans (ih (by omega)) (Nat.le_add_right _ _)
    · have : a = n + 1 := by omega
      subst this
      exact le_refl _

/-- The track search of `decode` on a device whose blocks fit in an `int`:
started with `sum` the sectors in front of track `i`, it stops with `sum` the
sectors in front of the final `i`, the block is not in front of track
`i - 1`, and when the loop stops before the last track the block is at most
`sum * surfaces - 1` in `uint32`. -/
theorem decode_track_loop_spec (d : HDD) (block : Nat) (hs : 1 ≤ d.surfaces)
    (hN : d.surfaces * sectorsBefore d d.tracks_per_surface < 2 ^ 31) :
    ∀ (fuel i : Nat), 1 ≤ i → i ≤ d.tracks_per_surface →
      d.surfaces * sectorsBefore d (i - 1) ≤ block →
      i ≤ (d.decode_track_loop block fuel i (sectorsBefore d i : Int)).1 ∧
      (d.decode_track_loop block fuel i (sectorsBefore d i : Int)).2
        = (sectorsBefore d (d.decode_track_loop block fuel i (sectorsBefore d i : Int)).1 : Int) ∧
      d.surfaces * sectorsBefore d
        ((d.decode_track_loop block fuel i (sectorsBefore d i : Int)).1 - 1) ≤ block ∧
      ((d.decode_track_loop block fuel i (sectorsBefore d i : Int)).1 < d.tracks_per_surface →
        d.tracks_per_surface ≤ fuel + i →
        ¬ block > sub32 (u32 (sectorsBefore d
          (d.decode_track_loop block fuel i (sectorsBefore d i : Int)).1 * d.surfaces)) 1) := by
  intro fuel
  induction fuel with
  | zero =>
    intro i h1 hi hlow
    exact ⟨le_refl _, rfl, hlow, fun h h' => absurd (lt_of_lt_of_le h h') (by simp [HDD.decode_track_loop])⟩
  | succ n ih =>
    intro i h1 hi hlow
    have hSi : d.surfaces * sectorsBefore d i < 2 ^ 31 :=
      lt_of_le_of_lt (Nat.mul_le_mul_left _ (sectorsBefore_mono d hi)) hN
    have hSi' : sectorsBefore d i < 2 ^ 31 :=
      lt_of_le_of_lt (Nat.le_mul_of_pos_left _ hs) hSi
    have hof : ofInt32 (sectorsBefore d i : Int) = sectorsBefore d i :=
      ofInt32_natCast (by omega)
    rw [HDD.decode_track_loop]
    by_cases hc : block > sub32 (u32 (ofInt32 (sectorsBefore d i : Int) * d.surfaces)) 1
        ∧ i < d.tracks_per_surface
    · rw [if_pos hc]
      have hi1 : i + 1 ≤ d.tracks_per_surface := hc.2
      have hS1 : d.surfaces * sectorsBefore d (i + 1) < 2 ^ 31 :=
        lt_of_le_of_lt (Nat.mul_le_mul_left _ (sectorsBefore_mono d hi1)) hN
      have hS1' : sectorsBefore d (i + 1) < 2 ^ 31 :=
        lt_of_le_of_lt (Nat.le_mul_of_pos_left _ hs) hS1
      have hsum : toInt32 (u64 (ofInt64 (sectorsBefore d i : Int) + d.sectors_track i))
          = (sectorsBefore d (i + 1) : Int) := by
        rw [ofInt64_natCast (by omega), ← sectorsBefore_succ, u64_of_lt (by omega),
          toInt32_of_lt hS1']
      have hlow' : d.surfaces * sectorsBefore d (i + 1 - 1) ≤ block := by
        have hcb := hc.1
        rw [hof, Nat.mul_comm, u32_of_lt (by omega)] at hcb
        rw [Nat.add_sub_cancel]
        unfold sub32 at hcb
        omega
      rw [hsum]
      obtain ⟨a, b, c, e⟩ := ih (i + 1) (by omega) hi1 hlow'
      exact ⟨by omega, b, c, fun h h' => e h (by omega)⟩
    · rw [if_neg hc]
      refine ⟨le_refl _, rfl, hlow, fun h _ hgt => hc ⟨?_, h⟩⟩
      rw [hof]
      exact hgt


theorem u64_le (n : Nat) : u64 n ≤ n := Nat.mod_le _ _

theorem sub32_of_le {a b : Nat} (hb : b ≤ a) (ha : a < 2 ^ 32) : sub32 a b = a - b := by
  unfold sub32
  omega

theorem u32_add_sub32 {a b : Nat} (ha : a < 2 ^ 32) (hb : b < 2 ^ 32) :
    u32 (a + sub32 b a) = b := by
  unfold u32 sub32
  omega

/-- Without overflow of the product, `sectors_track` is the interpolation
`inner + t * (outer - inner) / (tracks - 1)` over the natural numbers. -/
theorem sectors_track_eq (d : HDD) (hw : d.WellFormed) (h2 : 2 ≤ d.tracks_per_surface)
    (hio : d.sectors_innermost_track ≤ d.sectors_outermost_track)
    (hno : (d.tracks_per_surface - 1)
      * (d.sectors_outermost_track - d.sectors_innermost_track) < 2 ^ 32)
    (t : Nat) (ht : t ≤ d.tracks_per_surface - 1) :
    d.sectors_track t = d.sectors_innermost_track
      + t * (d.sectors_outermost_track - d.sectors_innermost_track)
        / (d.tracks_per_surface - 1) := by
  obtain ⟨_, htps, _, _, _, hin, hout, _⟩ := hw
  have hD : sub32 d.sectors_outermost_track d.sectors_innermost_track
      = d.sectors_outermost_track - d.sectors_innermost_track := sub32_of_le hio hout
  have hT : sub32 d.tracks_per_surface 1 = d.tracks_per_surface - 1 :=
    sub32_of_le (by omega) htps
  have hprod : t * (d.sectors_outermost_track - d.sectors_innermost_track) < 2 ^ 32 :=
    lt_of_le_of_lt (Nat.mul_le_mul_right _ ht) hno
  have hq : t * (d.sectors_outermost_track - d.sectors_innermost_track)
      / (d.tracks_per_surface - 1)
      ≤ d.sectors_outermost_track - d.sectors_innermost_track := by
    apply Nat.div_le_of_le_mul
    exact Nat.mul_le_mul_right _ ht
  unfold HDD.sectors_track
  rw [hD, hT, u32_of_lt hprod, u32_of_lt (by omega)]

/-- When the byte count fits in 64 bits and the sector size is not zero,
`capacity() / sectorSize` is the block count `surfaces * sectors_surface()`. -/
theorem capacity_div_sector_size (d : HDD) (hs : 0 < d.sector_size)
    (hno : d.surfaces * d.sectors_surface * d.sector_size < 2 ^ 64) :
    d.capacity / d.sector_size = d.surfaces * d.sectors_surface := by
  have h1 : d.surfaces * d.sectors_surface < 2 ^ 64 :=
    lt_of_le_of_lt (Nat.le_mul_of_pos_right _ hs) hno
  unfold HDD.capacity
  rw [u64_of_lt h1, u64_of_lt hno, Nat.mul_div_cancel _ hs]

theorem zoned_wellFormed : zoned.WellFormed := by
  simp [HDD.WellFormed, zoned, HDD.new]

theorem slow_decode_4 :
    slow.decode 4 = some { surface := 0, track := 3, sector := 1, max_sectors := 1 } := by
  decide

/-! ## The claims, continued -/

/-- Claim C11 (a read of one full track charges no further seek), evaluated
on the device `slow` (tracks of 1, 1, 2, 2, 3 sectors, one surface, seek
overhead 2 and 1 per track): block 4 is the first block of track 3, which
holds 2 sectors, and `decode` reports a run of 1 block only; the read of 2
blocks enters the track loop once and charges `seek_time(3, 4) = 3` on top
of the initial `seek_time(0, 3) = 5`. -/
theorem read_full_track_advances :
    2 ≤ slow.tracks_per_surface ∧
    slow.surfaces * sectorsBefore slow 3 = 4 ∧ slow.sectors_track 3 = 2 ∧
    slow.decode 4 = some { surface := 0, track := 3, sector := 1, max_sectors := 1 } ∧
    sub64 2 (HDD.read_init slow { surface := 0, track := 3, sector := 1, max_sectors := 1 } 2).sum
      > (HDD.read_init slow
          { surface := 0, track := 3, sector := 1, max_sectors := 1 } 2).pos.max_sectors ∧
    (HDD.read_init slow
      { surface := 0, track := 3, sector := 1, max_sectors := 1 } 2).seek_tim = 5 ∧
    (HDD.read_advance 2 (HDD.read_init slow
      { surface := 0, track := 3, sector := 1, max_sectors := 1 } 2)).seek_tim = 8 ∧
    (slow.read_run 2 0 4 2).map Prod.fst = some (ReadResult.ok 10) := by
  have hs2 : sub64 2 0 = 2 := by decide
  have hs1 : sub64 2 1 = 1 := by decide
  refine ⟨by decide, by decide, by decide, slow_decode_4, ?_, ?_, ?_, ?_⟩
  · simp +decide [HDD.read_init, HDD.read_time, hs2]
  · simp +decide [HDD.read_init, HDD.read_time, HDD.seek_time, hs2]
    simp [slow, HDD.new]
    norm_num
  · simp +decide [HDD.read_init, HDD.read_advance, HDD.read_time, HDD.seek_time, hs2, hs1]
    simp [slow, HDD.new, u32]
    norm_num
  · simp +decide [HDD.read_run, slow_decode_4, HDD.read_loop, HDD.read_init, HDD.read_advance,
      HDD.read_time, HDD.seek_time, HDD.wait_time, hs2, hs1]
    simp [slow, HDD.new, HDD.sectors_track, u32, u64, sub32, sub64]
    norm_num

/-- Claim C12 (the head ends on the track of the last block read), evaluated
on the freshly constructed device `zoned`: the read of block 2, which lies on
track 2, succeeds and leaves `_head_pos` at 0; the read of blocks 0 to 3,
whose last block lies on track 2, succeeds and leaves `_head_pos` at 1. -/
theorem read_leaves_head_behind :
    zoned.head_pos = 0 ∧
    zoned.decode 2 = some { surface := 0, track := 2, sector := 0, max_sectors := 2 } ∧
    (zoned.read_run 1 0 2 1).map (fun r => (r.1.isError, r.2.head_pos)) = some (false, 0) ∧
    zoned.surfaces * sectorsBefore zoned 2 ≤ 3 ∧ 3 < zoned.surfaces * sectorsBefore zoned 3 ∧
    (zoned.read_run 3 0 0 4).map (fun r => (r.1.isError, r.2.head_pos)) = some (false, 1) := by
  have hs : sub64 1 0 = 1 := by decide
  have hs4 : sub64 4 0 = 4 := by decide
  have hs3 : sub64 4 1 = 3 := by decide
  have hs2 : sub64 4 2 = 2 := by decide
  refine ⟨rfl, zoned_decode_2, ?_, by decide, by decide, ?_⟩
  · simp +decide [HDD.read_run, zoned_decode_2, HDD.read_loop, HDD.read_init, HDD.read_time,
      HDD.seek_time, HDD.wait_time, hs, ReadResult.isError]
  · simp +decide [HDD.read_run, zoned_decode_0, HDD.read_loop, HDD.read_init,
      HDD.read_advance, HDD.read_time, HDD.seek_time, HDD.wait_time, hs4, hs3, hs2,
      ReadResult.isError]

/-- Claim C13 (`pos.sector` is the offset in the track divided by the number
of surfaces), evaluated on the device `zoned`: block 4 is the first block of
track 3, so the claim gives sector `(4 - 4) / 1 = 0`, and `decode` returns
sector 1. -/
theorem decode_sector_shifted :
    2 ≤ zoned.tracks_per_surface ∧
    zoned.decode 4 = some { surface := 0, track := 3, sector := 1, max_sectors := 1 } ∧
    (4 - zoned.surfaces * sectorsBefore zoned 3) / zoned.surfaces = 0 := by
  decide

/-- Claim C14 (`pos.max_sectors` reaches exactly to the end of the track),
evaluated on the device `zoned`: track 3 holds the blocks 4 and 5, the next
track starts at block 6, and `decode(4)` returns `max_sectors = 1`, so that
`4 + 1` is not 6. -/
theorem decode_run_too_short :
    2 ≤ zoned.tracks_per_surface ∧
    zoned.decode 4 = some { surface := 0, track := 3, sector := 1, max_sectors := 1 } ∧
    zoned.surfaces * sectorsBefore zoned (3 + 1) = 6 ∧ 4 + 1 ≠ 6 := by
  decide

/-- Claim C15 as stated (for every geometry) does not hold: on the device
`wide` one track holds `2^32 + 2` blocks, `sum * _surfaces` wraps in 32 bits,
and block 5, which lies on track 0, is decoded to track 2. -/
theorem decode_track_wraps :
    ¬ ∀ (d : HDD) (block : Nat) (pos : HDD_Position), d.WellFormed →
      2 ≤ d.tracks_per_surface → d.decode block = some pos →
      pos.surface = block % d.surfaces ∧
      d.surfaces * sectorsBefore d pos.track ≤ block ∧
      block < d.surfaces * sectorsBefore d (pos.track + 1) := by
  intro h
  have hw : wide.WellFormed := by simp [HDD.WellFormed, wide, HDD.new]
  have hd : wide.decode 5 = some { surface := 1, track := 2, sector := 0, max_sectors := 1 } := by
    decide
  have h2 := (h wide 5 _ hw (by decide) hd).2.1
  revert h2
  decide

/-- Claim C15, amended: on a device with at least two tracks whose blocks,
all tracks counted, fit in an `int` (`surfaces * sum of sectors_track < 2^31`),
every successful `decode` returns `surface = block mod surfaces` and the one
track whose cumulative block range contains the block. -/
theorem decode_track_and_surface (d : HDD) (hw : d.WellFormed)
    (h2 : 2 ≤ d.tracks_per_surface)
    (hN : d.surfaces * sectorsBefore d d.tracks_per_surface < 2 ^ 31)
    (block : Nat) (pos : HDD_Position) (hdec : d.decode block = some pos) :
    pos.surface = block % d.surfaces ∧
    d.surfaces * sectorsBefore d pos.track ≤ block ∧
    block < d.surfaces * sectorsBefore d (pos.track + 1) ∧
    ∀ t : Nat, d.surfaces * sectorsBefore d t ≤ block →
      block < d.surfaces * sectorsBefore d (t + 1) → t = pos.track := by
  have hs : 1 ≤ d.surfaces := by
    by_contra hcon
    have h0 : d.surfaces = 0 := by omega
    unfold HDD.decode at hdec
    rw [h0, Nat.mul_zero] at hdec
    simp [u64] at hdec
  have hspec := decode_track_loop_spec d block hs hN d.tracks_per_surface 1 (le_refl _)
    (by omega) (by simp [sectorsBefore])
  have hS1 : (sectorsBefore d 1 : Int) = toInt32 (d.sectors_track 0) := by
    have hle : d.surfaces * sectorsBefore d 1 < 2 ^ 31 :=
      lt_of_le_of_lt (Nat.mul_le_mul_left _ (sectorsBefore_mono d (by omega))) hN
    have hlt : sectorsBefore d 1 < 2 ^ 31 := lt_of_le_of_lt (Nat.le_mul_of_pos_left _ hs) hle
    have h1 : sectorsBefore d 1 = d.sectors_track 0 := by
      rw [sectorsBefore_succ]
      simp [sectorsBefore]
    rw [← h1, toInt32_of_lt hlt]
  rw [hS1] at hspec
  unfold HDD.decode at hdec
  dsimp only at hdec
  split_ifs at hdec with hr hi hj
  simp only [Option.some.injEq] at hdec
  obtain ⟨hge, -, hlow, hup⟩ := hspec
  set i := (d.decode_track_loop block d.tracks_per_surface 1 (toInt32 (d.sectors_track 0))).1
    with hidef
  have hilt : i < d.tracks_per_surface := by omega
  have htrack : pos.track = i - 1 := by
    rw [← hdec]
    exact u32_of_lt (by have := hw.2.1; omega)
  have hsurf : pos.surface = block % d.surfaces := by
    rw [← hdec]
    exact u32_of_lt (lt_trans (Nat.mod_lt _ hs) hw.1)
  have hpos : 0 < d.sectors_track (i - 1) := by
    have : u32 (i - 1) = i - 1 := u32_of_lt (by have := hw.2.1; omega)
    rw [this] at hj
    omega
  have hSi : sectorsBefore d i = sectorsBefore d (i - 1) + d.sectors_track (i - 1) := by
    have : i = (i - 1) + 1 := by omega
    rw [this, sectorsBefore_succ, Nat.add_sub_cancel]
  have hlt31 : d.surfaces * sectorsBefore d i < 2 ^ 31 :=
    lt_of_le_of_lt (Nat.mul_le_mul_left _ (sectorsBefore_mono d (le_of_lt hilt))) hN
  have hupper : block < d.surfaces * sectorsBefore d i := by
    have h := hup hilt (by omega)
    rw [Nat.mul_comm, u32_of_lt (by omega)] at h
    have hprod : 1 ≤ d.surfaces * sectorsBefore d i :=
      Nat.mul_pos hs (by omega)
    unfold sub32 at h
    omega
  have hi1 : pos.track + 1 = i := by omega
  refine ⟨hsurf, by rw [htrack]; exact hlow, by rw [hi1]; exact hupper, ?_⟩
  intro t ht1 ht2
  by_contra hne
  rcases Nat.lt_or_gt_of_ne hne with hlt | hgt
  · have := Nat.mul_le_mul_left d.surfaces (sectorsBefore_mono d (show t + 1 ≤ i - 1 by omega))
    omega
  · have := Nat.mul_le_mul_left d.surfaces (sectorsBefore_mono d (show i ≤ t by omega))
    omega


/-- The amended claim C15 at block 2 of the device `zoned`, which is decoded
to surface 0 of track 2. -/
theorem decode_track_and_surface_witness :
    zoned.decode 2 = some { surface := 0, track := 2, sector := 0, max_sectors := 2 } ∧
    (0 = 2 % zoned.surfaces ∧
     zoned.surfaces * sectorsBefore zoned 2 ≤ 2 ∧
     2 < zoned.surfaces * sectorsBefore zoned (2 + 1) ∧
     ∀ t : Nat, zoned.surfaces * sectorsBefore zoned t ≤ 2 →
       2 < zoned.surfaces * sectorsBefore zoned (t + 1) → t = 2) :=
  ⟨zoned_decode_2,
    decode_track_and_surface zoned zoned_wellFormed (by decide) (by decide) 2
      { surface := 0, track := 2, sector := 0, max_sectors := 2 } zoned_decode_2⟩

/-- Claim C18 as stated (for every geometry with
`sectorsOutermost >= sectorsInnermost`) does not hold: on the device `steep`
(3 tracks, 0 to `2^31` sectors) the product `2 * 2^31` wraps to 0 in
`uint32`, so track 1 has `2^30` sectors and track 2 has none. -/
theorem sectors_track_not_monotone :
    ¬ ∀ (d : HDD) (a b : Nat), d.WellFormed → 2 ≤ d.tracks_per_surface →
      d.sectors_innermost_track ≤ d.sectors_outermost_track →
      a ≤ b → b ≤ d.tracks_per_surface - 1 → d.sectors_track a ≤ d.sectors_track b := by
  intro h
  have hw : steep.WellFormed := by simp [HDD.WellFormed, steep, HDD.new]
  have h1 := h steep 1 2 hw (by decide) (by decide) (by decide) (by decide)
  revert h1
  decide

/-- Claim C18, amended: when moreover the product
`(tracksPerSurface - 1) * (sectorsOutermost - sectorsInnermost)` is below
`2^32`, `sectors_track` is monotone over the tracks `0 .. tracksPerSurface - 1`. -/
theorem sectors_track_monotone (d : HDD) (hw : d.WellFormed) (h2 : 2 ≤ d.tracks_per_surface)
    (hio : d.sectors_innermost_track ≤ d.sectors_outermost_track)
    (hno : (d.tracks_per_surface - 1)
      * (d.sectors_outermost_track - d.sectors_innermost_track) < 2 ^ 32)
    (a b : Nat) (hab : a ≤ b) (hb : b ≤ d.tracks_per_surface - 1) :
    d.sectors_track a ≤ d.sectors_track b := by
  rw [sectors_track_eq d hw h2 hio hno a (le_trans hab hb),
    sectors_track_eq d hw h2 hio hno b hb]
  exact Nat.add_le_add_left (Nat.div_le_div_right (Nat.mul_le_mul_right _ hab)) _

/-- The amended claim C18 for the tracks 1 and 3 of the device `zoned`. -/
theorem sectors_track_monotone_witness :
    zoned.sectors_innermost_track ≤ zoned.sectors_outermost_track ∧
    (zoned.tracks_per_surface - 1)
      * (zoned.sectors_outermost_track - zoned.sectors_innermost_track) < 2 ^ 32 ∧
    zoned.sectors_track 1 ≤ zoned.sectors_track 3 :=
  ⟨by decide, by decide,
    sectors_track_monotone zoned zoned_wellFormed (by decide) (by decide) (by decide) 1 3
      (by decide) (by decide)⟩

/-- Claim C19 as stated (for every geometry) does not hold: on the device
`steep` (3 tracks, 0 to `2^31` sectors) the last track gets
`0 + (2 * 2^31 mod 2^32) / 2 = 0` sectors, not `sectorsOutermost = 2^31`. -/
theorem sectors_track_misses_outermost :
    ¬ ∀ (d : HDD), d.WellFormed → 2 ≤ d.tracks_per_surface →
      d.sectors_track 0 = d.sectors_innermost_track ∧
      d.sectors_track (d.tracks_per_surface - 1) = d.sectors_outermost_track := by
  intro h
  have hw : steep.WellFormed := by simp [HDD.WellFormed, steep, HDD.new]
  have h1 := (h steep hw (by decide)).2
  revert h1
  decide

/-- Claim C19, amended: when the product
`(tracksPerSurface - 1) * (sectorsOutermost - sectorsInnermost)`, with the
difference taken in `uint32` as the code does, is below `2^32`, the
interpolation hits both end points. -/
theorem sectors_track_end_points (d : HDD) (hw : d.WellFormed) (h2 : 2 ≤ d.tracks_per_surface)
    (hno : (d.tracks_per_surface - 1)
      * sub32 d.sectors_outermost_track d.sectors_innermost_track < 2 ^ 32) :
    d.sectors_track 0 = d.sectors_innermost_track ∧
    d.sectors_track (d.tracks_per_surface - 1) = d.sectors_outermost_track := by
  obtain ⟨_, htps, _, _, _, hin, hout, _⟩ := hw
  have hT : sub32 d.tracks_per_surface 1 = d.tracks_per_surface - 1 :=
    sub32_of_le (by omega) htps
  constructor
  · unfold HDD.sectors_track
    have h0 : u32 0 = 0 := rfl
    rw [Nat.zero_mul, h0, Nat.zero_div, Nat.add_zero]
    exact u32_of_lt hin
  · unfold HDD.sectors_track
    rw [hT, u32_of_lt hno, Nat.mul_div_cancel_left _ (by omega : 0 < d.tracks_per_surface - 1)]
    exact u32_add_sub32 hin hout

/-- The amended claim C19 on the device `zoned`: track 0 has 1 sector, track 4
has 3. -/
theorem sectors_track_end_points_witness :
    2 ≤ zoned.tracks_per_surface ∧
    (zoned.tracks_per_surface - 1)
      * sub32 zoned.sectors_outermost_track zoned.sectors_innermost_track < 2 ^ 32 ∧
    (zoned.sectors_track 0 = zoned.sectors_innermost_track ∧
     zoned.sectors_track (zoned.tracks_per_surface - 1) = zoned.sectors_outermost_track) :=
  ⟨by decide, by decide,
    sectors_track_end_points zoned zoned_wellFormed (by decide) (by decide)⟩

/-- Claim C20 as stated (for every geometry, with the bound
`capacity()/sectorSize`) does not hold: on the device `bulky` the byte count
`2^31 * 4 * 2^31` wraps to 0 in `uint64`, so `capacity()/sectorSize` is 0,
and `decode` accepts block 0. -/
theorem decode_accepts_at_wrapped_capacity :
    ¬ ∀ (d : HDD) (block : Nat), d.WellFormed → block ≥ d.capacity / d.sector_size →
      d.decode block = none := by
  intro h
  have hw : bulky.WellFormed := by simp [HDD.WellFormed, bulky, HDD.new]
  have h1 := h bulky 0 hw (by decide)
  revert h1
  decide

/-- Claim C20, amended: `decode` fails on every block that is not below
`sectors_surface() * _surfaces` as `decode` computes it, in `uint64`; on a
device with a sector size of at least 1 whose byte count
`surfaces * sectors_surface() * sectorSize` is below `2^64`, `decode` fails
on every block that is not below `capacity()/sectorSize`. -/
theorem decode_rejects_out_of_range (d : HDD) (block : Nat) :
    (block ≥ u64 (d.sectors_surface * d.surfaces) → d.decode block = none) ∧
    (0 < d.sector_size → d.surfaces * d.sectors_surface * d.sector_size < 2 ^ 64 →
      block ≥ d.capacity / d.sector_size → d.decode block = none) := by
  have key : block ≥ u64 (d.sectors_surface * d.surfaces) → d.decode block = none := by
    intro hge
    unfold HDD.decode
    rw [if_pos hge]
  refine ⟨key, fun hs hno h => key ?_⟩
  rw [capacity_div_sector_size d hs hno] at h
  rw [Nat.mul_comm]
  exact le_trans (u64_le _) h

/-- The amended claim C20 at block 5 of the device `tiny`, whose capacity is
one block of 512 bytes, and at block `2^64` of the device `wide`, where the
product `sectors_surface() * _surfaces` is reduced to `uint64`. -/
theorem decode_rejects_out_of_range_witness :
    0 < tiny.sector_size ∧
    tiny.surfaces * tiny.sectors_surface * tiny.sector_size < 2 ^ 64 ∧
    5 ≥ tiny.capacity / tiny.sector_size ∧ tiny.decode 5 = none ∧
    18446744073709551616 ≥ u64 (wide.sectors_surface * wide.surfaces) ∧
    wide.decode 18446744073709551616 = none :=
  ⟨by decide, by decide, by decide,
    (decode_rejects_out_of_range tiny 5).2 (by decide) (by decide) (by decide), by decide,
    (decode_rejects_out_of_range wide 18446744073709551616).1 (by decide)⟩

/-! ## The track loop of `read`, pass by pass -/

theorem read_advance_dev_tracks (nblocks : Nat) (s : HDD.ReadLocals) :
    (HDD.read_advance nblocks s).dev.tracks_per_surface = s.dev.tracks_per_surface := rfl

theorem read_advance_track (nblocks : Nat) (s : HDD.ReadLocals) :
    (HDD.read_advance nblocks s).pos.track = u32 (s.pos.track + 1) := rfl

theorem read_advance_seek_tim (nblocks : Nat) (s : HDD.ReadLocals) :
    (HDD.read_advance nblocks s).seek_tim = s.seek_tim + HDD.pass_seek s := rfl

theorem read_advance_read_tim (nblocks : Nat) (s : HDD.ReadLocals) :
    (HDD.read_advance nblocks s).read_tim = s.read_tim + HDD.pass_transfer nblocks s := rfl

theorem read_advance_wait_time (nblocks : Nat) (s : HDD.ReadLocals) :
    (HDD.read_advance nblocks s).dev.wait_time = s.dev.wait_time := rfl

/-- A property of the loop locals that every pass preserves holds at the
start of every pass. -/
theorem read_passes_forall (nblocks : Nat) (P : HDD.ReadLocals → Prop)
    (hstep : ∀ s, P s → sub64 nblocks s.sum > s.pos.max_sectors →
      ¬ (HDD.read_advance nblocks s).pos.track
          > (HDD.read_advance nblocks s).dev.tracks_per_surface →
      P (HDD.read_advance nblocks s)) :
    ∀ (fuel : Nat) (s : HDD.ReadLocals), P s →
      ∀ p ∈ HDD.read_passes nblocks fuel s, P p := by
  intro fuel
  induction fuel with
  | zero => intro s _ p hp; simp [HDD.read_passes] at hp
  | succ n ih =>
    intro s hs p hp
    rw [HDD.read_passes] at hp
    split_ifs at hp with h1 h2
    · simp only [List.mem_singleton] at hp
      exact hp ▸ hs
    · rcases List.mem_cons.mp hp with h | h
      · exact h ▸ hs
      · exact ih _ (hstep s hs h1 h2) p h
    · simp at hp

/-- If the loop advances to a track index above `_tracks_per_surface`, the
loop returns the sentinel `-1.2`. -/
theorem read_loop_err_track (ts : ℚ) (nblocks : Nat) :
    ∀ (fuel : Nat) (s : HDD.ReadLocals),
      (∃ t ∈ HDD.read_tracks nblocks fuel s, t > s.dev.tracks_per_surface) →
      ∃ d', HDD.read_loop ts nblocks fuel s = some (ReadResult.err_track, d') := by
  intro fuel
  induction fuel with
  | zero =>
    intro s h
    obtain ⟨t, ht, _⟩ := h
    simp [HDD.read_tracks, HDD.read_passes] at ht
  | succ n ih =>
    intro s h
    obtain ⟨t, ht, hgt⟩ := h
    rw [HDD.read_tracks, HDD.read_passes] at ht
    rw [HDD.read_loop]
    split_ifs at ht with h1 h2
    · rw [if_pos h1, if_pos h2]
      exact ⟨_, rfl⟩
    · rw [if_pos h1, if_neg h2]
      simp only [List.map_cons, List.mem_cons] at ht
      rcases ht with h | h
      · rw [h] at hgt
        exact absurd hgt (by rw [read_advance_dev_tracks] at h2; exact h2)
      · exact ih _ ⟨t, h, by rw [read_advance_dev_tracks]; exact hgt⟩
    · simp at ht

/-- The value of a successful run of the loop: the timestamp, the seeks and
transfers charged so far and in every pass, and one `wait_time`. -/
theorem read_loop_ok_value (ts : ℚ) (nblocks : Nat) :
    ∀ (fuel : Nat) (s : HDD.ReadLocals) (t : ℚ) (d' : HDD),
      HDD.read_loop ts nblocks fuel s = some (ReadResult.ok t, d') →
      t = ts + (s.seek_tim + ((HDD.read_passes nblocks fuel s).map HDD.pass_seek).sum)
            + (s.read_tim
                + ((HDD.read_passes nblocks fuel s).map (HDD.pass_transfer nblocks)).sum)
            + s.dev.wait_time := by
  intro fuel
  induction fuel with
  | zero => intro s t d' h; simp [HDD.read_loop] at h
  | succ n ih =>
    intro s t d' h
    rw [HDD.read_loop] at h
    rw [HDD.read_passes]
    split_ifs at h with h1 h2
    · simp at h
    · rw [if_pos h1, if_neg h2]
      have := ih _ t d' h
      rw [read_advance_seek_tim, read_advance_read_tim, read_advance_wait_time] at this
      rw [this]
      simp only [List.map_cons, List.sum_cons]
      ring
    · rw [if_neg h1]
      simp only [Option.some.injEq, Prod.mk.injEq, ReadResult.ok.injEq] at h
      rw [← h.1]
      simp

theorem decode_some (d : HDD) (block : Nat) (pos : HDD_Position)
    (h : d.decode block = some pos) :
    1 ≤ d.surfaces ∧ pos.surface = u32 (block % d.surfaces) ∧
    pos.track < d.tracks_per_surface ∧ pos.max_sectors < 2 ^ 32 := by
  have hs : 1 ≤ d.surfaces := by
    by_contra hcon
    have h0 : d.surfaces = 0 := by omega
    unfold HDD.decode at h
    rw [h0, Nat.mul_zero] at h
    simp [u64] at h
  unfold HDD.decode at h
  dsimp only at h
  split_ifs at h with hr hi hj
  simp only [Option.some.injEq] at h
  refine ⟨hs, by rw [← h], ?_, ?_⟩
  · rw [← h]
    show u32 _ < _
    have : u32 ((d.decode_track_loop block d.tracks_per_surface 1
        (toInt32 (d.sectors_track 0))).1 - 1)
        ≤ (d.decode_track_loop block d.tracks_per_surface 1
        (toInt32 (d.sectors_track 0))).1 - 1 := Nat.mod_le _ _
    omega
  · rw [← h]
    exact Nat.mod_lt _ (by norm_num)

theorem read_init_dev (d : HDD) (pos : HDD_Position) (nblocks : Nat) :
    (HDD.read_init d pos nblocks).dev
      = (({ d with surface_pos := pos.surface } : HDD).read_time
          (HDD.read_init_count pos nblocks)).2 := by
  unfold HDD.read_init HDD.read_init_count
  dsimp only
  split_ifs <;> rfl

theorem read_init_count_lt (pos : HDD_Position) (nblocks : Nat) (hn : nblocks < 2 ^ 64)
    (hm : pos.max_sectors < 2 ^ 32) : HDD.read_init_count pos nblocks < 2 ^ 32 := by
  unfold HDD.read_init_count sub64
  split_ifs with h
  · omega
  · exact hm

/-- Accounting of the track loop: `acc` sectors were handed to `read_time`
so far and `_surface_pos` is `(block + acc) mod surfaces`. A successful run
ends with all `nblocks` sectors handed over and with
`_surface_pos = (block + nblocks) mod surfaces`. -/
theorem read_loop_account (ts : ℚ) (nblocks block S : Nat) (hn : nblocks < 2 ^ 64)
    (hS1 : 1 ≤ S) (hS2 : S < 2 ^ 32) :
    ∀ (fuel : Nat) (s : HDD.ReadLocals) (acc : Nat) (t : ℚ) (d' : HDD),
      s.dev.surfaces = S → s.sum ≤ nblocks → s.pos.max_sectors < 2 ^ 32 →
      s.dev.surface_pos = (block + acc) % S →
      ((nblocks - s.sum > s.pos.max_sectors ∧ acc = s.sum + s.pos.max_sectors) ∨
        (nblocks - s.sum ≤ s.pos.max_sectors ∧ acc = nblocks)) →
      HDD.read_loop ts nblocks fuel s = some (ReadResult.ok t, d') →
      acc + ((HDD.read_passes nblocks fuel s).map (HDD.read_count nblocks)).sum = nblocks ∧
      d'.surface_pos = (block + nblocks) % S := by
  intro fuel
  induction fuel with
  | zero => intro s acc t d' _ _ _ _ _ h; simp [HDD.read_loop] at h
  | succ n ih =>
    intro s acc t d' hsurf hsum hmax hsp hacc h
    have hsub : sub64 nblocks s.sum = nblocks - s.sum := by
      unfold sub64
      omega
    rw [HDD.read_loop] at h
    rw [HDD.read_passes]
    split_ifs at h with h1 h2
    · simp at h
    · rw [if_pos h1, if_neg h2]
      rw [hsub] at h1
      have hacc1 : acc = s.sum + s.pos.max_sectors := by
        rcases hacc with ha | ha
        · exact ha.2
        · omega
      have hsum1 : (HDD.read_advance nblocks s).sum = s.sum + s.pos.max_sectors := by
        show u64 _ = _
        exact Nat.mod_eq_of_lt (by omega)
      have hmax1 : (HDD.read_advance nblocks s).pos.max_sectors < 2 ^ 32 := by
        show u32 _ < _
        exact Nat.mod_lt _ (by norm_num)
      have hsub1 : sub64 nblocks (HDD.read_advance nblocks s).sum
          = nblocks - (s.sum + s.pos.max_sectors) := by
        rw [hsum1]
        unfold sub64
        omega
      have hcount : HDD.read_count nblocks s
          = if nblocks - (s.sum + s.pos.max_sectors)
                > (HDD.read_advance nblocks s).pos.max_sectors
            then (HDD.read_advance nblocks s).pos.max_sectors
            else nblocks - (s.sum + s.pos.max_sectors) := by
        rw [← hsub1]
        rfl
      have hcount_lt : HDD.read_count nblocks s < 2 ^ 32 := by
        rw [hcount]
        split_ifs with hc
        · exact hmax1
        · omega
      have hsp_lt : s.dev.surface_pos < S := by
        rw [hsp]
        exact Nat.mod_lt _ hS1
      have hsp1 : (HDD.read_advance nblocks s).dev.surface_pos
          = (block + (acc + HDD.read_count nblocks s)) % S := by
        show u32 (u64 (HDD.read_count nblocks s + s.dev.surface_pos) % s.dev.surfaces) = _
        rw [hsurf, u64, Nat.mod_eq_of_lt (by omega : HDD.read_count nblocks s
            + s.dev.surface_pos < 2 ^ 64),
          u32, Nat.mod_eq_of_lt (lt_trans (Nat.mod_lt _ hS1) hS2), hsp, Nat.add_mod_mod]
        congr 1
        omega
      have hacc' : (nblocks - (HDD.read_advance nblocks s).sum
            > (HDD.read_advance nblocks s).pos.max_sectors ∧
          acc + HDD.read_count nblocks s = (HDD.read_advance nblocks s).sum
            + (HDD.read_advance nblocks s).pos.max_sectors) ∨
          (nblocks - (HDD.read_advance nblocks s).sum
            ≤ (HDD.read_advance nblocks s).pos.max_sectors ∧
          acc + HDD.read_count nblocks s = nblocks) := by
        rw [hsum1, hcount]
        split_ifs with hc
        · left
          exact ⟨hc, by omega⟩
        · right
          exact ⟨by omega, by omega⟩
      obtain ⟨e1, e2⟩ := ih (HDD.read_advance nblocks s) (acc + HDD.read_count nblocks s) t d'
        hsurf (by rw [hsum1]; omega) hmax1 hsp1 hacc' h
      refine ⟨?_, e2⟩
      simp only [List.map_cons, List.sum_cons]
      omega
    · rw [if_neg h1]
      rw [hsub] at h1
      simp only [Option.some.injEq, Prod.mk.injEq] at h
      have hacc1 : acc = nblocks := by
        rcases hacc with ha | ha
        · exact absurd ha.1 h1
        · exact ha.2
      refine ⟨by simp [hacc1], ?_⟩
      rw [← h.2, hsp, hacc1]

/-- The accounting of `read_loop_account` started by `read_init`. -/
theorem read_run_account (fuel : Nat) (d : HDD) (hw : d.WellFormed) (ts : ℚ)
    (block nblocks : Nat) (hn : nblocks < 2 ^ 64) (t : ℚ) (d' : HDD)
    (h : d.read_run fuel ts block nblocks = some (ReadResult.ok t, d')) :
    ∃ pos, d.decode block = some pos ∧
      (HDD.read_counts d pos nblocks fuel).sum = nblocks ∧
      d'.surface_pos = (block + nblocks) % d.surfaces := by
  cases hdec : d.decode block with
  | none => simp [HDD.read_run, hdec] at h
  | some pos =>
    replace h : HDD.read_loop ts nblocks fuel (HDD.read_init d pos nblocks)
        = some (ReadResult.ok t, d') := by
      simpa [HDD.read_run, hdec] using h
    obtain ⟨hs1, hsf, -, hmax⟩ := decode_some d block pos hdec
    have hS2 : d.surfaces < 2 ^ 32 := hw.1
    have hcnt := read_init_count_lt pos nblocks hn hmax
    have hpsf : pos.surface = block % d.surfaces := by
      rw [hsf]
      exact Nat.mod_eq_of_lt (lt_trans (Nat.mod_lt _ hs1) hS2)
    have hsp : (HDD.read_init d pos nblocks).dev.surface_pos
        = (block + HDD.read_init_count pos nblocks) % d.surfaces := by
      rw [read_init_dev]
      show u32 (u64 (HDD.read_init_count pos nblocks + pos.surface) % d.surfaces) = _
      have hlt : pos.surface < d.surfaces := by
        rw [hpsf]
        exact Nat.mod_lt _ hs1
      rw [u64, Nat.mod_eq_of_lt (by omega : HDD.read_init_count pos nblocks
          + pos.surface < 2 ^ 64),
        u32, Nat.mod_eq_of_lt (lt_trans (Nat.mod_lt _ hs1) hS2), hpsf, Nat.add_mod_mod,
        Nat.add_comm]
    have hsurf : (HDD.read_init d pos nblocks).dev.surfaces = d.surfaces := by
      rw [read_init_dev]
      rfl
    have hacc : (nblocks - (HDD.read_init d pos nblocks).sum
          > (HDD.read_init d pos nblocks).pos.max_sectors ∧
        HDD.read_init_count pos nblocks = (HDD.read_init d pos nblocks).sum
          + (HDD.read_init d pos nblocks).pos.max_sectors) ∨
        (nblocks - (HDD.read_init d pos nblocks).sum
          ≤ (HDD.read_init d pos nblocks).pos.max_sectors ∧
        HDD.read_init_count pos nblocks = nblocks) := by
      show (nblocks - 0 > pos.max_sectors ∧ _ = 0 + pos.max_sectors) ∨
        (nblocks - 0 ≤ pos.max_sectors ∧ _ = nblocks)
      unfold HDD.read_init_count sub64
      split_ifs with hc
      · right
        exact ⟨by omega, rfl⟩
      · rcases Nat.lt_or_ge pos.max_sectors nblocks with hlt | hge
        · left
          exact ⟨by omega, by omega⟩
        · right
          exact ⟨by omega, by omega⟩
    obtain ⟨e1, e2⟩ := read_loop_account ts nblocks block d.surfaces hn hs1 hS2 fuel
      (HDD.read_init d pos nblocks) (HDD.read_init_count pos nblocks) t d' hsurf
      (Nat.zero_le _) hmax hsp hacc h
    refine ⟨pos, rfl, ?_, e2⟩
    unfold HDD.read_counts
    rw [List.sum_cons]
    exact e1


theorem read_time_nonneg (d : HDD) (n : Nat) : 0 ≤ (d.read_time n).1 := by
  unfold HDD.read_time
  dsimp only
  have hc : (0 : ℚ) ≤ ((⌈((u64 (n + d.surface_pos) : Nat) : ℚ) / (d.surfaces : ℚ)⌉ : Int) : ℚ) := by
    exact_mod_cast Int.ceil_nonneg (div_nonneg (Nat.cast_nonneg _) (Nat.cast_nonneg _))
  exact div_nonneg (mul_nonneg (div_nonneg hc (Nat.cast_nonneg _)) (by norm_num))
    (Nat.cast_nonneg _)

theorem seek_time_nonneg (d : HDD) (a b : Nat) (ho : 0 ≤ d.seek_overhead)
    (hp : 0 ≤ d.seek_per_track) (hab : a ≤ b) : 0 ≤ d.seek_time a b := by
  have hq : (0 : ℚ) ≤ (b : ℚ) - (a : ℚ) := by
    have : (a : ℚ) ≤ (b : ℚ) := by exact_mod_cast hab
    linarith
  unfold HDD.seek_time
  split_ifs
  · exact le_refl _
  · exact add_nonneg ho (mul_nonneg hq hp)
  · exact add_nonneg ho (mul_nonneg hq hp)

theorem wait_time_nonneg (d : HDD) : 0 ≤ d.wait_time := by
  unfold HDD.wait_time
  exact div_nonneg (div_nonneg (by norm_num) (Nat.cast_nonneg _)) (by norm_num)

theorem zoned_read_2_1 :
    zoned.read_run 1 0 2 1 = some (ReadResult.ok (3 / 2), zoned) := by
  have hs : sub64 1 0 = 1 := by decide
  simp +decide [HDD.read_run, zoned_decode_2, HDD.read_loop, HDD.read_init, HDD.read_time,
    HDD.seek_time, HDD.wait_time, hs]
  simp [zoned, HDD.new, HDD.sectors_track, u32, u64, sub32]
  norm_num

theorem paired_decode_1 :
    paired.decode 1 = some { surface := 1, track := 0, sector := 0, max_sectors := 3 } := by
  decide

theorem paired_read_1_4 :
    paired.read_run 2 0 1 4
      = some (ReadResult.ok 2, { paired with surface_pos := 1 }) := by
  have hs4 : sub64 4 0 = 4 := by decide
  have hs3 : sub64 4 3 = 1 := by decide
  have hc2 : ⌈((4 : ℚ) / 2)⌉ = 2 := by norm_num
  have hc1 : ⌈((1 : ℚ) / 2)⌉ = 1 := by
    rw [Int.ceil_eq_iff]
    norm_num
  simp +decide [HDD.read_run, paired_decode_1, HDD.read_loop, HDD.read_init,
    HDD.read_advance, HDD.read_time, HDD.seek_time, HDD.wait_time, hs4, hs3]
  simp [paired, HDD.new, HDD.sectors_track, u32, u64, sub32, sub64]
  norm_num [hc2, hc1]

theorem parked_decode_4 : (HDD.new 1 5 1 3 60 512 0 1 false).decode 4
    = some { surface := 0, track := 3, sector := 1, max_sectors := 1 } := by decide

theorem parked_eq : parked = { HDD.new 1 5 1 3 60 512 0 1 false with head_pos := 3 } := by
  have hs2 : sub64 2 0 = 2 := by decide
  have hs1 : sub64 2 1 = 1 := by decide
  simp +decide [parked, HDD.read_run, parked_decode_4, HDD.read_loop, HDD.read_init, HDD.read_advance,
      HDD.read_time, HDD.seek_time, HDD.wait_time, hs2, hs1]

theorem parked_decode_0 : parked.decode 0
    = some { surface := 0, track := 0, sector := 0, max_sectors := 1 } := by
  rw [parked_eq]; decide

theorem paired_wellFormed : paired.WellFormed := by
  simp [HDD.WellFormed, paired, HDD.new]

/-! ## The claims, third part -/

/-- Claim C21: when the start block is decoded and the track loop of `read`
advances `pos.track` to an index above `_tracks_per_surface`, `read` returns
the sentinel `-1.2` and no end timestamp. -/
theorem read_beyond_tracks_is_error (fuel : Nat) (d : HDD) (ts : ℚ) (block nblocks : Nat)
    (pos : HDD_Position) (hdec : d.decode block = some pos)
    (h : ∃ t ∈ HDD.read_tracks nblocks fuel (HDD.read_init d pos nblocks),
      t > d.tracks_per_surface) :
    ∃ d', d.read_run fuel ts block nblocks = some (ReadResult.err_track, d') ∧
      d.read fuel ts block nblocks = some (-12 / 10) := by
  have hT : (HDD.read_init d pos nblocks).dev.tracks_per_surface = d.tracks_per_surface := by
    rw [read_init_dev]
    rfl
  obtain ⟨d', hd'⟩ := read_loop_err_track ts nblocks fuel (HDD.read_init d pos nblocks)
    (by rw [hT]; exact h)
  have hrun : d.read_run fuel ts block nblocks = some (ReadResult.err_track, d') := by
    simp only [HDD.read_run, hdec]
    exact hd'
  exact ⟨d', hrun, by simp [HDD.read, hrun, ReadResult.value]⟩

/-- Claim C21 on the device `tiny` (two tracks): the read of 10 blocks at
block 0 advances to the tracks 1, 2, 3, and 3 exceeds `_tracks_per_surface`. -/
theorem read_beyond_tracks_is_error_witness :
    tiny.decode 0 = some { surface := 0, track := 0, sector := 0, max_sectors := 1 } ∧
    (∃ t ∈ HDD.read_tracks 10 3
        (HDD.read_init tiny { surface := 0, track := 0, sector := 0, max_sectors := 1 } 10),
      t > tiny.tracks_per_surface) ∧
    ∃ d', tiny.read_run 3 0 0 10 = some (ReadResult.err_track, d') ∧
      tiny.read 3 0 0 10 = some (-12 / 10) :=
  ⟨tiny_decode_0, ⟨3, by decide, by decide⟩,
    read_beyond_tracks_is_error 3 tiny 0 0 10 _ tiny_decode_0 ⟨3, by decide, by decide⟩⟩

/-- Claim C22 (`write` returns the end timestamp that `read` returns),
evaluated on the freshly constructed device `zoned`: `write(0, 2, 1)` returns
`ts = 0`, the body being `return ts;`, and `read(0, 2, 1)` returns `3/2`. -/
theorem write_returns_ts :
    (zoned.write 0 2 1).1 = 0 ∧ zoned.read 1 0 2 1 = some (3 / 2) ∧
    some (zoned.write 0 2 1).1 ≠ zoned.read 1 0 2 1 := by
  have h : zoned.read 1 0 2 1 = some (3 / 2) := by
    simp [HDD.read, zoned_read_2_1, ReadResult.value]
  refine ⟨rfl, h, ?_⟩
  rw [h]
  norm_num [HDD.write]

/-- Claim C23 (a successful `read` raises `hits() + misses()`), evaluated on
the freshly constructed device `zoned` next to a fresh cache of 2 blocks:
`read(0, 2, 1)` succeeds and `hits() + misses()` is 0 after the call as it
was before, `read` containing no call of the cache. -/
theorem read_leaves_cache_statistics :
    ∃ c : BlockCache, BlockCache.new 2 false = some c ∧ c.hits + c.misses = 0 ∧
      (zoned.read_with_cache 1 c 0 2 1).map
        (fun r => (r.1.isError, r.2.2.hits + r.2.2.misses)) = some (false, 0) :=
  ⟨{ nblocks := 2, verbose := false, hit := 0, miss := 0 }, by decide, by decide,
    by simp [HDD.read_with_cache, zoned_read_2_1, ReadResult.isError, BlockCache.hits,
      BlockCache.misses]⟩

/-- Claim C24 as stated does not hold: on the device `zoned` the read of
block 2 at `ts = -2.6` succeeds and returns `-1.1`, the value returned for
the out-of-range block 100; on the device `parked` (head on track 3, seeks of
1 per track) the read of block 0 at `ts = 0.9` succeeds and returns
`0.9 - 3 + 0.5 + 0.5 = -1.1` as well. -/
theorem read_timestamp_equals_sentinel :
    zoned.read_run 1 (-13 / 5) 2 1 = some (ReadResult.ok (-11 / 10), zoned) ∧
    zoned.read_run 1 (-13 / 5) 100 1 = some (ReadResult.err_decode, zoned) ∧
    (ReadResult.ok (-11 / 10)).value = ReadResult.err_decode.value ∧
    parked.head_pos = 3 ∧
    (parked.read_run 1 (9 / 10) 0 1).map Prod.fst = some (ReadResult.ok (-11 / 10)) := by
  have hs : sub64 1 0 = 1 := by decide
  refine ⟨?_, ?_, ?_, ?_, ?_⟩
  · simp +decide [HDD.read_run, zoned_decode_2, HDD.read_loop, HDD.read_init, HDD.read_time,
      HDD.seek_time, HDD.wait_time, hs]
    simp [zoned, HDD.new, HDD.sectors_track, u32, u64, sub32]
    norm_num
  · have : zoned.decode 100 = none := by decide
    simp [HDD.read_run, this]
  · simp [ReadResult.value]
  · rw [parked_eq]
  · simp +decide [HDD.read_run, parked_decode_0, HDD.read_loop, HDD.read_init, HDD.read_time,
      HDD.seek_time, HDD.wait_time, hs]
    simp [parked_eq, HDD.new, HDD.sectors_track, u32, u64, sub32]
    norm_num


/-- Claim C24, amended: on a device with non-negative seek parameters and
`tracksPerSurface < 2^32 - 1`, a read with `ts >= 0` whose start track is not
below the head track and that returns an end timestamp returns a value
`>= ts`, which differs from both error values `-1.1` and `-1.2`. -/
theorem read_timestamp_not_sentinel (fuel : Nat) (d : HDD) (ts : ℚ) (block nblocks : Nat)
    (t : ℚ) (d' : HDD) (hts : 0 ≤ ts) (ho : 0 ≤ d.seek_overhead) (hp : 0 ≤ d.seek_per_track)
    (htps : d.tracks_per_surface + 1 < 2 ^ 32)
    (hhead : ∀ pos, d.decode block = some pos → d.head_pos ≤ pos.track)
    (h : d.read_run fuel ts block nblocks = some (ReadResult.ok t, d')) :
    ts ≤ t ∧ t ≠ ReadResult.err_decode.value ∧ t ≠ ReadResult.err_track.value := by
  have key : ts ≤ t := by
    cases hdec : d.decode block with
    | none => simp [HDD.read_run, hdec] at h
    | some pos =>
      replace h : HDD.read_loop ts nblocks fuel (HDD.read_init d pos nblocks)
          = some (ReadResult.ok t, d') := by
        simpa [HDD.read_run, hdec] using h
      obtain ⟨-, -, htrk, -⟩ := decode_some d block pos hdec
      have hval := read_loop_ok_value ts nblocks fuel _ t d' h
      have hinv := read_passes_forall nblocks
        (fun s => s.dev.seek_overhead = d.seek_overhead ∧
          s.dev.seek_per_track = d.seek_per_track ∧
          s.dev.tracks_per_surface = d.tracks_per_surface ∧
          s.pos.track ≤ d.tracks_per_surface)
        (fun s hs _ h2 => ⟨hs.1, hs.2.1, hs.2.2.1, by
          have := hs.2.2.1
          rw [read_advance_dev_tracks] at h2
          omega⟩)
        fuel (HDD.read_init d pos nblocks)
        ⟨by rw [read_init_dev]; rfl, by rw [read_init_dev]; rfl, by rw [read_init_dev]; rfl,
          le_of_lt htrk⟩
      have hseek : 0 ≤ ((HDD.read_passes nblocks fuel (HDD.read_init d pos nblocks)).map
          HDD.pass_seek).sum := by
        apply List.sum_nonneg
        intro x hx
        obtain ⟨p, hpm, rfl⟩ := List.mem_map.mp hx
        obtain ⟨e1, e2, e3, e4⟩ := hinv p hpm
        unfold HDD.pass_seek
        have hu : u32 (p.pos.track + 1) = p.pos.track + 1 := Nat.mod_eq_of_lt (by omega)
        rw [hu]
        exact seek_time_nonneg _ _ _ (by rw [← e1] at ho; exact ho)
          (by rw [← e2] at hp; exact hp) (Nat.le_succ _)
      have hread : 0 ≤ ((HDD.read_passes nblocks fuel (HDD.read_init d pos nblocks)).map
          (HDD.pass_transfer nblocks)).sum := by
        apply List.sum_nonneg
        intro x hx
        obtain ⟨p, -, rfl⟩ := List.mem_map.mp hx
        exact read_time_nonneg _ _
      have hs0 : 0 ≤ (HDD.read_init d pos nblocks).seek_tim :=
        seek_time_nonneg _ _ _ ho hp (hhead pos hdec)
      have hr0 : 0 ≤ (HDD.read_init d pos nblocks).read_tim := by
        unfold HDD.read_init
        dsimp only
        split_ifs <;> exact read_time_nonneg _ _
      have hw0 := wait_time_nonneg (HDD.read_init d pos nblocks).dev
      rw [hval]
      linarith
  refine ⟨key, ?_, ?_⟩
  · have : ReadResult.err_decode.value < 0 := by norm_num [ReadResult.value]
    linarith
  · have : ReadResult.err_track.value < 0 := by norm_num [ReadResult.value]
    linarith

/-- The amended claim C24 for the read of block 2 on the freshly constructed
device `zoned` at `ts = 0`, which returns `3/2`. -/
theorem read_timestamp_not_sentinel_witness :
    zoned.read_run 1 0 2 1 = some (ReadResult.ok (3 / 2), zoned) ∧
    ((0 : ℚ) ≤ 3 / 2 ∧ (3 / 2 : ℚ) ≠ ReadResult.err_decode.value ∧
      (3 / 2 : ℚ) ≠ ReadResult.err_track.value) :=
  ⟨zoned_read_2_1,
    read_timestamp_not_sentinel 1 zoned 0 2 1 (3 / 2) zoned (le_refl _) (by decide)
      (by decide) (by decide) (fun pos h => by rw [zoned_decode_2] at h; cases h; decide)
      zoned_read_2_1⟩

/-- Claim C25 as stated does not hold: the constructor accepts one track per
surface; the device exists and its interpolation divisor
`_tracks_per_surface - 1` is zero. -/
theorem hdd_new_accepts_one_track :
    ∃ d : HDD, d = HDD.new 1 1 1 1 60 512 0 0 false ∧ d.tracks_per_surface < 2 ∧
      sub32 d.tracks_per_surface 1 = 0 :=
  ⟨HDD.new 1 1 1 1 60 512 0 0 false, rfl, by decide, by decide⟩

/-- Claim C25, amended: the constructor checks nothing; for every
`tracks_per_surface`, 0 and 1 included, the constructed device stores it,
with the head on track 0 and surface offset 0. The divisor
`_tracks_per_surface - 1` of `sectors_track`, formed in `uint32`, is zero
exactly for one track per surface, and a device constructed with one track
per surface has `sectors_surface() = 0` and `capacity() = 0`, `decode`
rejects every block and `read` returns `-1.1` with the device unchanged. -/
theorem hdd_new_unvalidated (surfaces tracks inner outer rpm sector_size : Nat)
    (seek_overhead seek_per_track : ℚ) (verbose : Bool) (hlt : tracks < 2 ^ 32)
    (d : HDD)
    (hd : d = HDD.new surfaces tracks inner outer rpm sector_size seek_overhead
      seek_per_track verbose) :
    d.tracks_per_surface = tracks ∧ d.head_pos = 0 ∧ d.surface_pos = 0 ∧
    (sub32 d.tracks_per_surface 1 = 0 ↔ tracks = 1) ∧
    (tracks = 1 → d.sectors_surface = 0 ∧ d.capacity = 0 ∧
      ∀ (fuel : Nat) (ts : ℚ) (block nblocks : Nat),
        d.decode block = none ∧
        d.read_run fuel ts block nblocks = some (ReadResult.err_decode, d)) := by
  subst hd
  refine ⟨rfl, rfl, rfl, ?_, ?_⟩
  · show sub32 tracks 1 = 0 ↔ tracks = 1
    unfold sub32
    omega
  · intro h1
    subst h1
    have hss : (HDD.new surfaces 1 inner outer rpm sector_size seek_overhead seek_per_track
        verbose).sectors_surface = 0 := by
      have h0 : sub32 1 1 = 0 := by decide
      have hz : ofInt64 0 = 0 := by decide
      unfold HDD.sectors_surface
      show ofInt64 ((List.range (sub32 1 1)).foldl _ 0) = 0
      rw [h0, List.range_zero, List.foldl_nil, hz]
    have hdec : ∀ block, (HDD.new surfaces 1 inner outer rpm sector_size seek_overhead
        seek_per_track verbose).decode block = none := by
      intro block
      unfold HDD.decode
      rw [hss, Nat.zero_mul]
      exact if_pos (Nat.zero_le _)
    refine ⟨hss, ?_, fun fuel ts block nblocks => ⟨hdec block, ?_⟩⟩
    · unfold HDD.capacity
      rw [hss]
      simp [u64]
    · simp [HDD.read_run, hdec block]

/-- The amended claim C25 for the device `single`, constructed with one
track per surface. -/
theorem hdd_new_unvalidated_witness :
    single.tracks_per_surface = 1 ∧ single.head_pos = 0 ∧ single.surface_pos = 0 ∧
    (sub32 single.tracks_per_surface 1 = 0 ↔ 1 = 1) ∧
    (1 = 1 → single.sectors_surface = 0 ∧ single.capacity = 0 ∧
      ∀ (fuel : Nat) (ts : ℚ) (block nblocks : Nat),
        single.decode block = none ∧
        single.read_run fuel ts block nblocks = some (ReadResult.err_decode, single)) :=
  hdd_new_unvalidated 1 1 1 1 60 512 0 0 false (by decide) single rfl

/-- Claim C26: the constructor of `BlockCache` fails (the assertion
`nblocks >= 2`) for every `nblocks < 2`, and for every `nblocks >= 2` it
yields a cache with `size() = nblocks` and `hits() = misses() = 0`. -/
theorem cache_new_spec (nblocks : Nat) (verbose : Bool) :
    (nblocks < 2 → BlockCache.new nblocks verbose = none) ∧
    (2 ≤ nblocks → ∃ c, BlockCache.new nblocks verbose = some c ∧ c.size = nblocks ∧
      c.hits = 0 ∧ c.misses = 0) := by
  constructor
  · intro h
    unfold BlockCache.new
    rw [if_neg (by omega)]
  · intro h
    unfold BlockCache.new
    rw [if_pos h]
    exact ⟨_, rfl, rfl, rfl, rfl⟩

/-- Claim C26 for the capacities 1 and 2. -/
theorem cache_new_spec_witness :
    BlockCache.new 1 false = none ∧
    ∃ c, BlockCache.new 2 false = some c ∧ c.size = 2 ∧ c.hits = 0 ∧ c.misses = 0 :=
  ⟨(cache_new_spec 1 false).1 (by decide), (cache_new_spec 2 false).2 (by decide)⟩

/-- Claim C27: for every capacity of at least 2 the freshly constructed cache
has `hits() + misses() = 0` and `miss_rate()` is exactly 0; the body of
`miss_rate` is `return 0.0;` and divides nothing. -/
theorem cache_fresh_miss_rate (nblocks : Nat) (verbose : Bool) (h : 2 ≤ nblocks) :
    ∃ c, BlockCache.new nblocks verbose = some c ∧ c.hits + c.misses = 0 ∧
      c.miss_rate = 0 := by
  unfold BlockCache.new
  rw [if_pos h]
  exact ⟨_, rfl, rfl, rfl⟩

/-- Claim C27 for the capacity 2. -/
theorem cache_fresh_miss_rate_witness :
    ∃ c, BlockCache.new 2 false = some c ∧ c.hits + c.misses = 0 ∧ c.miss_rate = 0 :=
  cache_fresh_miss_rate 2 false (by decide)

/-- Claim C30: after every successful `read` the surface offset
`_surface_pos` is `(block + nblocks) mod surfaces`, whatever it was before
the call (no bound on the geometry is needed). -/
theorem read_surface_offset (fuel : Nat) (d : HDD) (hw : d.WellFormed) (ts : ℚ)
    (block nblocks : Nat) (hn : nblocks < 2 ^ 64) (t : ℚ) (d' : HDD)
    (h : d.read_run fuel ts block nblocks = some (ReadResult.ok t, d')) :
    d'.surface_pos = (block + nblocks) % d.surfaces := by
  obtain ⟨_, -, -, h3⟩ := read_run_account fuel d hw ts block nblocks hn t d' h
  exact h3

/-- Claim C30 for the read of the blocks 1 to 4 on the device `paired` (two
surfaces): the surface offset ends at `(1 + 4) mod 2 = 1`. -/
theorem read_surface_offset_witness :
    paired.read_run 2 0 1 4 = some (ReadResult.ok 2, { paired with surface_pos := 1 }) ∧
    ({ paired with surface_pos := 1 } : HDD).surface_pos = (1 + 4) % paired.surfaces :=
  ⟨paired_read_1_4,
    read_surface_offset 2 paired paired_wellFormed 0 1 4 (by decide) 2 _ paired_read_1_4⟩

/-! ## Termination -/

/-- The bound on the first loop of `decode` never cuts the loop short: one
more iteration allowed gives the same result. -/
theorem decode_track_loop_fuel (d : HDD) (block : Nat) :
    ∀ (fuel i : Nat) (sum : Int), d.tracks_per_surface ≤ fuel + i →
      d.decode_track_loop block (fuel + 1) i sum = d.decode_track_loop block fuel i sum := by
  intro fuel
  induction fuel with
  | zero =>
    intro i sum h
    rw [HDD.decode_track_loop, HDD.decode_track_loop, if_neg (by omega)]
  | succ n ih =>
    intro i sum h
    conv_lhs => rw [HDD.decode_track_loop]
    conv_rhs => rw [HDD.decode_track_loop]
    split_ifs with hc
    · exact ih _ _ (by omega)
    · rfl

/-- The bound on the second loop of `decode` never cuts the loop short. -/
theorem decode_cursor_loop_fuel (d : HDD) (block track : Nat) :
    ∀ (fuel i : Nat) (cursor : Int), d.sectors_track track ≤ fuel + i →
      d.decode_cursor_loop block track (fuel + 1) i cursor
        = d.decode_cursor_loop block track fuel i cursor := by
  intro fuel
  induction fuel with
  | zero =>
    intro i cursor h
    rw [HDD.decode_cursor_loop, HDD.decode_cursor_loop, if_neg (by omega)]
  | succ n ih =>
    intro i cursor h
    conv_lhs => rw [HDD.decode_cursor_loop]
    conv_rhs => rw [HDD.decode_cursor_loop]
    split_ifs with hc
    · exact ih _ _ (by omega)
    · rfl

/-- The track loop of `read` returns within `tracks + 1 - track` evaluations
of its condition when the track index cannot wrap. -/
theorem read_loop_returns (ts : ℚ) (nblocks : Nat) :
    ∀ (fuel : Nat) (s : HDD.ReadLocals), s.dev.tracks_per_surface + 1 < 2 ^ 32 →
      s.pos.track ≤ s.dev.tracks_per_surface →
      s.dev.tracks_per_surface + 1 - s.pos.track ≤ fuel →
      ∃ r, HDD.read_loop ts nblocks fuel s = some r ∧ r.1 ≠ ReadResult.err_decode := by
  intro fuel
  induction fuel with
  | zero => intro s _ h1 h2; omega
  | succ n ih =>
    intro s h0 h1 h2
    rw [HDD.read_loop]
    split_ifs with hc he
    · exact ⟨_, rfl, by simp⟩
    · have htrk : (HDD.read_advance nblocks s).pos.track = s.pos.track + 1 := by
        rw [read_advance_track]
        exact u32_of_lt (by omega)
      rw [read_advance_dev_tracks] at he
      exact ih _ (by rw [read_advance_dev_tracks]; exact h0)
        (by rw [read_advance_dev_tracks]; omega)
        (by rw [read_advance_dev_tracks, htrk]; omega)
    · exact ⟨_, rfl, by simp⟩

/-- The number of passes of the track loop of `read` is at most
`tracks + 1 - track`. -/
theorem read_passes_length (nblocks : Nat) :
    ∀ (fuel : Nat) (s : HDD.ReadLocals), s.dev.tracks_per_surface + 1 < 2 ^ 32 →
      s.pos.track ≤ s.dev.tracks_per_surface →
      (HDD.read_passes nblocks fuel s).length ≤ s.dev.tracks_per_surface + 1 - s.pos.track := by
  intro fuel
  induction fuel with
  | zero => intro s _ _; simp [HDD.read_passes]
  | succ n ih =>
    intro s h0 h1
    rw [HDD.read_passes]
    split_ifs with hc he
    · simp only [List.length_singleton]
      omega
    · have htrk : (HDD.read_advance nblocks s).pos.track = s.pos.track + 1 := by
        rw [read_advance_track]
        exact u32_of_lt (by omega)
      rw [read_advance_dev_tracks] at he
      have := ih (HDD.read_advance nblocks s) (by rw [read_advance_dev_tracks]; exact h0)
        (by rw [read_advance_dev_tracks]; omega)
      rw [read_advance_dev_tracks, htrk] at this
      simp only [List.length_cons]
      omega
    · simp

/-! ## The claims, fourth part -/

/-- Claim C31: on a device with `tracksPerSurface < 2^32 - 1` every call of
`read` returns (a bound of `tracksPerSurface + 1` evaluations of the loop
condition is enough), and when the start block is decoded to track `t` the
track loop makes at most `tracksPerSurface + 1 - t` passes before `read`
returns an end timestamp or the error value `-1.2`. -/
theorem read_terminates (d : HDD) (ts : ℚ) (block nblocks : Nat)
    (htps : d.tracks_per_surface + 1 < 2 ^ 32) :
    (∃ r, d.read_run (d.tracks_per_surface + 1) ts block nblocks = some r) ∧
    ∀ pos, d.decode block = some pos → ∀ fuel : Nat,
      (HDD.read_passes nblocks fuel (HDD.read_init d pos nblocks)).length
        ≤ d.tracks_per_surface + 1 - pos.track ∧
      (d.tracks_per_surface + 1 - pos.track ≤ fuel →
        ∃ r, d.read_run fuel ts block nblocks = some r ∧
          (r.1 = ReadResult.err_track ∨ ∃ t, r.1 = ReadResult.ok t)) := by
  have hT : ∀ pos, (HDD.read_init d pos nblocks).dev.tracks_per_surface
      = d.tracks_per_surface := by
    intro pos
    rw [read_init_dev]
    rfl
  have main : ∀ pos, d.decode block = some pos → ∀ fuel : Nat,
      (HDD.read_passes nblocks fuel (HDD.read_init d pos nblocks)).length
        ≤ d.tracks_per_surface + 1 - pos.track ∧
      (d.tracks_per_surface + 1 - pos.track ≤ fuel →
        ∃ r, d.read_run fuel ts block nblocks = some r ∧
          (r.1 = ReadResult.err_track ∨ ∃ t, r.1 = ReadResult.ok t)) := by
    intro pos hdec fuel
    obtain ⟨-, -, htrk, -⟩ := decode_some d block pos hdec
    have h0 : (HDD.read_init d pos nblocks).dev.tracks_per_surface + 1 < 2 ^ 32 := by
      rw [hT]
      exact htps
    have h1 : (HDD.read_init d pos nblocks).pos.track
        ≤ (HDD.read_init d pos nblocks).dev.tracks_per_surface := by
      rw [hT]
      exact le_of_lt htrk
    constructor
    · have := read_passes_length nblocks fuel _ h0 h1
      rw [hT] at this
      exact this
    · intro hf
      obtain ⟨r, hr, hne⟩ := read_loop_returns ts nblocks fuel _ h0 h1 (by rw [hT]; exact hf)
      refine ⟨r, by simp only [HDD.read_run, hdec]; exact hr, ?_⟩
      cases hr1 : r.1 with
      | err_decode => exact absurd hr1 hne
      | err_track => exact Or.inl rfl
      | ok t => exact Or.inr ⟨t, rfl⟩
  refine ⟨?_, main⟩
  cases hdec : d.decode block with
  | none => exact ⟨(ReadResult.err_decode, d), by simp [HDD.read_run, hdec]⟩
  | some pos =>
    obtain ⟨r, hr, -⟩ := (main pos hdec (d.tracks_per_surface + 1)).2 (by omega)
    exact ⟨r, hr⟩

/-- Claim C31 for the read of 10 blocks at block 0 of the device `tiny`. -/
theorem read_terminates_witness :
    tiny.tracks_per_surface + 1 < 2 ^ 32 ∧
    ((∃ r, tiny.read_run (tiny.tracks_per_surface + 1) 0 0 10 = some r) ∧
    ∀ pos, tiny.decode 0 = some pos → ∀ fuel : Nat,
      (HDD.read_passes 10 fuel (HDD.read_init tiny pos 10)).length
        ≤ tiny.tracks_per_surface + 1 - pos.track ∧
      (tiny.tracks_per_surface + 1 - pos.track ≤ fuel →
        ∃ r, tiny.read_run fuel 0 0 10 = some r ∧
          (r.1 = ReadResult.err_track ∨ ∃ t, r.1 = ReadResult.ok t))) :=
  ⟨by decide, read_terminates tiny 0 0 10 (by decide)⟩

/-- Claim C32 as stated (for every byte address) does not hold: with sectors
of 512 bytes the request of 2 bytes at address 511 is converted to block 0
and 1 block, and its last byte 512 lies in block 1. -/
theorem driver_blocks_miss_last_byte : ¬ ∀ (bps address length : Nat), 1 ≤ bps → bps < 2 ^ 32 → address < 2 ^ 64 →
      1 ≤ length → length < 2 ^ 64 →
      (address + length - 1) / bps < Driver.block bps address + Driver.nblocks bps length := by
  intro h
  have h1 := h 512 511 2 (by decide) (by decide) (by decide) (by decide) (by decide)
  revert h1
  decide

/-- Claim C32, amended: for a byte address that is a multiple of the sector
size `bps >= 1` and a length `>= 1` with `length + bps <= 2^64` (the sum of
the driver does not wrap), the last requested byte lies in the block range:
`(address + length - 1) / bps < block + nblocks`. -/
theorem driver_blocks_cover_aligned (bps address length : Nat) (hb : 1 ≤ bps) (ha : address % bps = 0)
    (hl : 1 ≤ length) (hno : length + bps ≤ 2 ^ 64) :
    (address + length - 1) / bps < Driver.block bps address + Driver.nblocks bps length := by
  have hn : Driver.nblocks bps length = (length - 1) / bps + 1 := by
    unfold Driver.nblocks
    have h1 : sub64 (u64 (length + bps)) 1 = length - 1 + bps := by
      unfold sub64 u64
      omega
    rw [h1, Nat.add_div_right _ hb]
  have hq : address = bps * (address / bps) := by
    have := Nat.div_add_mod address bps
    omega
  have hd : (address + length - 1) / bps = address / bps + (length - 1) / bps := by
    have h2 : address + length - 1 = length - 1 + bps * (address / bps) := by omega
    rw [h2, Nat.add_mul_div_left _ _ hb, Nat.add_comm]
  rw [hd, hn]
  unfold Driver.block
  omega


/-- The amended claim C32 for 2 bytes at address 1024 with sectors of 512
bytes. -/
theorem driver_blocks_cover_aligned_witness :
    1024 % 512 = 0 ∧ 2 + 512 ≤ 2 ^ 64 ∧
    (1024 + 2 - 1) / 512 < Driver.block 512 1024 + Driver.nblocks 512 2 :=
  ⟨by decide, by decide,
    driver_blocks_cover_aligned 512 1024 2 (by decide) (by decide) (by decide) (by decide)⟩

end DiskLab
